import Mathlib

/-!
Verification development for the guitar-scales music-theory engine
(src/js/core/ChordEngine.js, the MusicTheory and ScaleEngine sections of the
same bundle, and src/js/data/scales.js plus the constant tables of
src/js/data/chordShapes.js).

The JavaScript code is embedded shallowly:

  * JS numbers used as chromatic indices are Int with the sentinel -1
    (Array.prototype.indexOf semantics); the JS remainder operator is
    Int.tmod (truncated, sign of the dividend).
  * Math.random() results are modelled as exact fractions: the structure Q
    below is a raw numerator/denominator pair, never normalised, so that
    every arithmetic step is kernel-computable.  The stream of draws is a
    function RSeq from draw position to Q, threaded through the generators
    as an explicit position counter, exactly one increment per
    Math.random() call in the source.
  * A JS null / undefined note value is modelled as the empty string: every
    comparison the engine performs on such a value (strict equality with a
    real note name, chromatic lookup) gives the same result for null and
    for the empty string.
  * Spreading a missing array element (undefined) produces an object whose
    missing string and number fields behave, in every comparison the engine
    performs, like the neutral values of spreadUndefChord below.
  * Where the source would throw on such degenerate data
    (selected.chord on an undefined selected, an out-of-range template
    index) or loop forever (tiling an empty template expansion), the model
    returns none.
-/

/-- Exact fraction model of a JS floating point number in probability
position: raw numerator and denominator, never normalised, so all
operations reduce in the kernel.  All constructors used in this file keep
the denominator positive. -/
structure Q where
  num : Int
  den : Int
deriving Repr, DecidableEq

/-- Comparison a < b by cross multiplication (valid for positive
denominators, which all values built in this file have). -/
def Q.ltb (a b : Q) : Bool := a.num * b.den < b.num * a.den

/-- Product of two fractions. -/
def Q.mul (a b : Q) : Q := ⟨a.num * b.num, a.den * b.den⟩

/-- Sum of two fractions. -/
def Q.add (a b : Q) : Q := ⟨a.num * b.den + b.num * a.den, a.den * b.den⟩

/-- A natural number as a fraction. -/
def Q.ofNat (n : Nat) : Q := ⟨(n : Int), 1⟩

/-- Math.floor of a fraction: floor division of numerator by denominator. -/
def Q.floor (a : Q) : Int := Int.fdiv a.num a.den

/-- The value is a well formed probability: positive denominator and a
value in the interval from zero inclusive to one exclusive. -/
def Q.isProb (a : Q) : Prop := 0 < a.den ∧ 0 ≤ a.num ∧ a.num < a.den

instance (a : Q) : Decidable a.isProb := by unfold Q.isProb; infer_instance

/-- The stream of Math.random() results: draw position to value. -/
def RSeq : Type := Nat → Q

/-- A stream whose every entry is a probability. -/
def RSeq.inRange (rs : RSeq) : Prop := ∀ n, (rs n).isProb

/-! ### Character and string helpers (reduction friendly replacements for
the library versions, mirroring the ASCII behaviour of the JS string
methods used by the engine). -/

/-- ASCII lower casing of one character (JS toLowerCase restricted to the
ASCII range, which covers every string the engine lower-cases). -/
def asciiLower (c : Char) : Char :=
  if 65 ≤ c.toNat ∧ c.toNat ≤ 90 then Char.ofNat (c.toNat + 32) else c

/-- ASCII upper casing of one character. -/
def asciiUpper (c : Char) : Char :=
  if 97 ≤ c.toNat ∧ c.toNat ≤ 122 then Char.ofNat (c.toNat - 32) else c

/-- JS String.prototype.toLowerCase (ASCII range). -/
def jsToLower (s : String) : String := String.mk (s.toList.map asciiLower)

/-- Is pat a prefix of l (character lists)? -/
def startsWithChars : List Char → List Char → Bool
  | [], _ => true
  | _ :: _, [] => false
  | a :: as, b :: bs => a = b && startsWithChars as bs

/-- Does l contain pat as a contiguous run (character lists)? -/
def containsChars (pat : List Char) : List Char → Bool
  | [] => startsWithChars pat []
  | c :: cs => startsWithChars pat (c :: cs) || containsChars pat cs

/-- JS String.prototype.includes. -/
def strIncludes (s pat : String) : Bool := containsChars pat.toList s.toList

/-- JS String.prototype.startsWith. -/
def strStartsWith (s pat : String) : Bool := startsWithChars pat.toList s.toList

/-- JS String.prototype.substring(n) (drop the first n characters; every
string it is applied to in the engine stays inside the basic plane, so
characters coincide with UTF-16 units). -/
def strDrop (s : String) (n : Nat) : String := String.mk (s.toList.drop n)

/-- toUpperCase followed by removal of every character outside the given
keep list: the JS idiom degree.toUpperCase().replace(new class regex, empty)
used for both the IVXB and the IVX character classes. -/
def filterDegreeChars (keep : List Char) (s : String) : String :=
  String.mk ((s.toList.map asciiUpper).filter (fun c => keep.contains c))

/-! ### Pitch arithmetic (MusicTheory section and the constant tables). -/

/-- The twelve sharp-preferred chromatic note names (NOTES constant). -/
def NOTES : List String :=
  ["C", "C#", "D", "D#", "E", "F"] ++ ["F#", "G", "G#", "A", "A#", "B"]

/-- Sharp name to flat name alias table (ALTERNATE_NAMES constant), in
object insertion order. -/
def ALTERNATE_NAMES : List (String × String) :=
  [("C#", "Db"), ("D#", "Eb"), ("F#", "Gb"), ("G#", "Ab"), ("A#", "Bb")]

/-- JS Array.prototype.indexOf: index of the first occurrence, or -1. -/
def listIndexOf (l : List String) (x : String) : Int :=
  match l with
  | [] => -1
  | y :: ys =>
      if y = x then 0
      else
        let r := listIndexOf ys x
        if r = -1 then -1 else r + 1

/-- getNoteIndex: chromatic index of a note name, searching the sharp
table first and the flat alias table second; -1 when not found. -/
def getNoteIndex (note : String) : Int :=
  let index := listIndexOf NOTES note
  if index = -1 then
    match ALTERNATE_NAMES.find? (fun p => p.2 == note) with
    | some p => listIndexOf NOTES p.1
    | none => -1
  else index

/-- transposeNote: (index + semitones + 12) tmod 12 into the sharp table.
A negative truncated remainder indexes outside the array in JS and yields
undefined there; that case is none here. -/
def transposeNote (note : String) (semitones : Int) : Option String :=
  let index := getNoteIndex note
  if index = -1 then none
  else
    let newIndex := Int.tmod (index + semitones + 12) 12
    if newIndex < 0 then none else NOTES.get? newIndex.toNat

/-- getInterval: ascending semitone distance from note1 to note2, none when
either name is unknown. -/
def getInterval (note1 note2 : String) : Option Int :=
  let index1 := getNoteIndex note1
  let index2 := getNoteIndex note2
  if index1 = -1 ∨ index2 = -1 then none
  else some (Int.tmod (index2 - index1 + 12) 12)

/-- A JS null note result flowing onward as a value: modelled as the empty
string (agrees with null in every comparison the engine performs). -/
def mkNote (o : Option String) : String := o.getD ""

/-- normalizeNote: canonical sharp spelling, or the flat alias when
preferFlats is set and the sharp spelling carries a sharp sign. -/
def normalizeNote (note : String) (preferFlats : Bool) : String :=
  let index := getNoteIndex note
  if index = -1 then note
  else
    let sharpNote := NOTES.getD index.toNat ""
    if !preferFlats || !(strIncludes sharpNote "#") then sharpNote
    else ((ALTERNATE_NAMES.find? (fun p => p.1 == sharpNote)).map (fun p => p.2)).getD sharpNote

/-- shouldUseFlats: the fixed list of flat keys. -/
def shouldUseFlats (root : String) : Bool :=
  ["F", "Bb", "Eb", "Ab", "Db", "Gb"].contains root

/-- getProperNoteName: spelling for a key signature. -/
def getProperNoteName (note root : String) : String :=
  normalizeNote note (shouldUseFlats root)

example : getNoteIndex "Bb" = 10 := by decide
example : transposeNote "C" (-13) = none := by decide
example : transposeNote "D" 7 = some "A" := by decide
example : getProperNoteName "A#" "F" = "Bb" := by decide

/-! ### Scale catalog (src/js/data/scales.js) and scale generation
(ScaleEngine section). -/

/-- One entry of the SCALE_PATTERNS table. -/
structure ScalePattern where
  name : String
  intervals : List Int
  degrees : List String
  formula : String
  category : String
deriving Repr, DecidableEq

/-- The SCALE_PATTERNS table, keyed by scale-type key, in source order. -/
def SCALE_PATTERNS : List (String × ScalePattern) :=
  [ ("major", ⟨"Major Scale (Ionian)", [0, 2, 4, 5, 7, 9, 11],
      ["1", "2", "3", "4", "5", "6", "7"], "W-W-H-W-W-W-H", "major"⟩),
    ("dorian", ⟨"Dorian", [0, 2, 3, 5, 7, 9, 10],
      ["1", "2", "b3", "4", "5", "6", "b7"], "W-H-W-W-W-H-W", "modes"⟩),
    ("phrygian", ⟨"Phrygian", [0, 1, 3, 5, 7, 8, 10],
      ["1", "b2", "b3", "4", "5", "b6", "b7"], "H-W-W-W-H-W-W", "modes"⟩),
    ("lydian", ⟨"Lydian", [0, 2, 4, 6, 7, 9, 11],
      ["1", "2", "3", "#4", "5", "6", "7"], "W-W-W-H-W-W-H", "modes"⟩),
    ("mixolydian", ⟨"Mixolydian", [0, 2, 4, 5, 7, 9, 10],
      ["1", "2", "3", "4", "5", "6", "b7"], "W-W-H-W-W-H-W", "modes"⟩),
    ("aeolian", ⟨"Aeolian (Natural Minor)", [0, 2, 3, 5, 7, 8, 10],
      ["1", "2", "b3", "4", "5", "b6", "b7"], "W-H-W-W-H-W-W", "minor"⟩),
    ("locrian", ⟨"Locrian", [0, 1, 3, 5, 6, 8, 10],
      ["1", "b2", "b3", "4", "b5", "b6", "b7"], "H-W-W-H-W-W-W", "modes"⟩),
    ("naturalMinor", ⟨"Natural Minor", [0, 2, 3, 5, 7, 8, 10],
      ["1", "2", "b3", "4", "5", "b6", "b7"], "W-H-W-W-H-W-W", "minor"⟩),
    ("harmonicMinor", ⟨"Harmonic Minor", [0, 2, 3, 5, 7, 8, 11],
      ["1", "2", "b3", "4", "5", "b6", "7"], "W-H-W-W-H-WH-H", "minor"⟩),
    ("melodicMinor", ⟨"Melodic Minor", [0, 2, 3, 5, 7, 9, 11],
      ["1", "2", "b3", "4", "5", "6", "7"], "W-H-W-W-W-W-H", "minor"⟩),
    ("majorPentatonic", ⟨"Major Pentatonic", [0, 2, 4, 7, 9],
      ["1", "2", "3", "5", "6"], "W-W-m3-W-m3", "pentatonic"⟩),
    ("minorPentatonic", ⟨"Minor Pentatonic", [0, 3, 5, 7, 10],
      ["1", "b3", "4", "5", "b7"], "m3-W-W-m3-W", "pentatonic"⟩),
    ("blues", ⟨"Blues Scale", [0, 3, 5, 6, 7, 10],
      ["1", "b3", "4", "b5", "5", "b7"], "m3-W-H-H-m3-W", "blues"⟩),
    ("harmonicMajor", ⟨"Harmonic Major", [0, 2, 4, 5, 7, 8, 11],
      ["1", "2", "3", "4", "5", "b6", "7"], "W-W-H-W-H-WH-H", "exotic"⟩),
    ("hungarianMinor", ⟨"Hungarian Minor", [0, 2, 3, 6, 7, 8, 11],
      ["1", "2", "b3", "#4", "5", "b6", "7"], "W-H-WH-H-H-WH-H", "exotic"⟩),
    ("doubleHarmonic", ⟨"Double Harmonic (Byzantine)", [0, 1, 4, 5, 7, 8, 11],
      ["1", "b2", "3", "4", "5", "b6", "7"], "H-WH-H-W-H-WH-H", "exotic"⟩),
    ("neapolitanMinor", ⟨"Neapolitan Minor", [0, 1, 3, 5, 7, 8, 11],
      ["1", "b2", "b3", "4", "5", "b6", "7"], "H-W-W-W-H-WH-H", "exotic"⟩),
    ("neapolitanMajor", ⟨"Neapolitan Major", [0, 1, 3, 5, 7, 9, 11],
      ["1", "b2", "b3", "4", "5", "6", "7"], "H-W-W-W-W-W-H", "exotic"⟩),
    ("enigmatic", ⟨"Enigmatic Scale", [0, 1, 4, 6, 8, 10, 11],
      ["1", "b2", "3", "#4", "#5", "#6", "7"], "H-WH-W-W-W-H-H", "exotic"⟩),
    ("persian", ⟨"Persian Scale", [0, 1, 4, 5, 6, 8, 11],
      ["1", "b2", "3", "4", "b5", "b6", "7"], "H-WH-H-H-W-WH-H", "exotic"⟩),
    ("altered", ⟨"Altered Scale (Super Locrian)", [0, 1, 3, 4, 6, 8, 10],
      ["1", "b2", "b3", "b4", "b5", "b6", "b7"], "H-W-H-W-W-W-W", "exotic"⟩),
    ("wholeTone", ⟨"Whole Tone Scale", [0, 2, 4, 6, 8, 10],
      ["1", "2", "3", "#4", "#5", "b7"], "W-W-W-W-W-W", "exotic"⟩),
    ("diminished", ⟨"Diminished Scale (Whole-Half)", [0, 2, 3, 5, 6, 8, 9, 11],
      ["1", "2", "b3", "4", "b5", "#5", "6", "7"], "W-H-W-H-W-H-W-H", "exotic"⟩),
    ("halfWholeDiminished", ⟨"Half-Whole Diminished", [0, 1, 3, 4, 6, 7, 9, 10],
      ["1", "b2", "b3", "3", "#4", "5", "6", "b7"], "H-W-H-W-H-W-H-W", "exotic"⟩),
    ("augmented", ⟨"Augmented Scale", [0, 3, 4, 7, 8, 11],
      ["1", "#2", "3", "#4", "5", "#6"], "m3-H-m3-H-m3-H", "exotic"⟩),
    ("prometheus", ⟨"Prometheus Scale", [0, 2, 4, 6, 9, 10],
      ["1", "2", "3", "#4", "6", "b7"], "W-W-W-m3-H-m3", "exotic"⟩),
    ("hirajoshi", ⟨"Hirajoshi Scale", [0, 2, 3, 7, 8],
      ["1", "2", "b3", "5", "b6"], "W-H-M3-H-M3", "exotic"⟩),
    ("inSen", ⟨"In-Sen Scale", [0, 1, 5, 7, 10],
      ["1", "b2", "4", "5", "b7"], "H-M3-W-m3-W", "exotic"⟩),
    ("iwato", ⟨"Iwato Scale", [0, 1, 5, 6, 10],
      ["1", "b2", "4", "b5", "b7"], "H-M3-H-M3-W", "exotic"⟩),
    ("yo", ⟨"Yo Scale", [0, 2, 5, 7, 9],
      ["1", "2", "4", "5", "6"], "W-m3-W-W-m3", "exotic"⟩),
    ("spanish", ⟨"Spanish Scale (Phrygian Dominant)", [0, 1, 4, 5, 7, 8, 10],
      ["1", "b2", "3", "4", "5", "b6", "b7"], "H-WH-H-W-H-W-W", "exotic"⟩),
    ("jewish", ⟨"Jewish Scale (Ahava Rabboh)", [0, 1, 4, 5, 7, 8, 10],
      ["1", "b2", "3", "4", "5", "b6", "b7"], "H-WH-H-W-H-W-W", "exotic"⟩),
    ("arabic", ⟨"Arabic Scale", [0, 2, 4, 5, 6, 8, 10],
      ["1", "2", "3", "4", "b5", "b6", "b7"], "W-W-H-H-W-W-W", "exotic"⟩),
    ("egyptian", ⟨"Egyptian Scale", [0, 2, 5, 7, 10],
      ["1", "2", "4", "5", "b7"], "W-m3-W-m3-W", "exotic"⟩) ]

/-- getScalePattern: table lookup by key. -/
def getScalePattern (scaleKey : String) : Option ScalePattern :=
  (SCALE_PATTERNS.find? (fun p => p.1 == scaleKey)).map (fun p => p.2)

/-- A generated scale record. -/
structure Scale where
  root : String
  type : String
  name : String
  notes : List String
  degrees : List String
  intervals : List Int
  formula : String
  category : String
deriving Repr, DecidableEq

/-- ScaleEngine.generateScale: resolve the pattern, transpose every
interval offset from the root and respell for the key. -/
def generateScale (root scaleType : String) : Option Scale :=
  match getScalePattern scaleType with
  | none => none
  | some pattern =>
      let notes := pattern.intervals.map (fun interval =>
        getProperNoteName (mkNote (transposeNote root interval)) root)
      some { root := root, type := scaleType, name := pattern.name,
             notes := notes, degrees := pattern.degrees,
             intervals := pattern.intervals, formula := pattern.formula,
             category := pattern.category }

example : (generateScale "F" "major").map Scale.notes =
    some ["F", "G", "A", "Bb", "C", "D", "E"] := by decide

/-! ### Chords and harmonization (ChordEngine, first section). -/

/-- A chord record; optional fields model JS object fields that are only
present on some chord kinds (undefined reads are none).  The
resolvesToNext field that applyComplexityVariation writes is never read
anywhere in the engine and is not modelled. -/
structure Chord where
  root : String
  notes : List String
  quality : String
  symbol : String
  degree : Option String
  scaleDegree : Nat
  type : String
  resolvesTo : Option String := none
  chordExtension : Option String := none
  chordFunction : Option String := none
  layer : Option String := none
  expectsResolution : Option String := none
deriving Repr, DecidableEq, Inhabited

/-- The object produced by spreading a missing (undefined) array element:
only explicitly written fields exist; the neutral values below agree with
undefined in every comparison the engine performs on them. -/
def spreadUndefChord : Chord :=
  { root := "", notes := [], quality := "", symbol := "", degree := none,
    scaleDegree := 0, type := "" }

/-- Spread a chord and set its layer field. -/
def chordWithLayer (c : Chord) (l : String) : Chord := { c with layer := some l }

/-- determineTriadQuality from the two interval fingerprints. -/
def determineTriadQuality (root third fifth : String) : String :=
  let thirdInterval := getInterval root third
  let fifthInterval := getInterval root fifth
  if thirdInterval = some 4 ∧ fifthInterval = some 7 then "major"
  else if thirdInterval = some 3 ∧ fifthInterval = some 7 then "minor"
  else if thirdInterval = some 3 ∧ fifthInterval = some 6 then "diminished"
  else if thirdInterval = some 4 ∧ fifthInterval = some 8 then "augmented"
  else "unknown"

/-- determineSeventhQuality from the three interval fingerprints. -/
def determineSeventhQuality (root third fifth seventh : String) : String :=
  let thirdInterval := getInterval root third
  let fifthInterval := getInterval root fifth
  let seventhInterval := getInterval root seventh
  if thirdInterval = some 4 ∧ fifthInterval = some 7 ∧ seventhInterval = some 11 then "major7"
  else if thirdInterval = some 3 ∧ fifthInterval = some 7 ∧ seventhInterval = some 10 then "minor7"
  else if thirdInterval = some 4 ∧ fifthInterval = some 7 ∧ seventhInterval = some 10 then "dominant7"
  else if thirdInterval = some 3 ∧ fifthInterval = some 6 ∧ seventhInterval = some 10 then "halfDiminished7"
  else if thirdInterval = some 3 ∧ fifthInterval = some 6 ∧ seventhInterval = some 9 then "diminished7"
  else if thirdInterval = some 3 ∧ fifthInterval = some 7 ∧ seventhInterval = some 11 then "minorMajor7"
  else if thirdInterval = some 4 ∧ fifthInterval = some 8 ∧ seventhInterval = some 10 then "augmented7"
  else "unknown"

/-- The quality to suffix table local to getChordSymbol. -/
def qualitySymbolTable : List (String × String) :=
  [("major", ""), ("minor", "m"), ("diminished", "dim"), ("augmented", "aug"),
   ("major7", "maj7"), ("minor7", "m7"), ("dominant7", "7"),
   ("diminished7", "dim7"), ("halfDiminished7", "m7♭5"),
   ("augmented7", "aug7"), ("minorMajor7", "mMaj7")]

/-- getChordSymbol: root name plus suffix; an unknown quality (and the
empty major suffix) both come out of the JS or-with-empty-string idiom as
the empty suffix. -/
def getChordSymbol (root quality : String) : String :=
  root ++ (((qualitySymbolTable.find? (fun p => p.1 == quality)).map (fun p => p.2)).getD "")

/-- The base Roman numeral table of getRomanNumeral. -/
def romanNumeralList : List String := ["I", "II", "III", "IV", "V", "VI", "VII"]

/-- getRomanNumeral: base numeral indexed by degree minus one (degree 0
would index at -1 in JS and the or-idiom turns the undefined into the
empty string), lower cased when the quality name contains minor or
diminished. -/
def getRomanNumeral (degree : Nat) (quality : String) : String :=
  let baseNumeral :=
    match degree with
    | 0 => ""
    | Nat.succ k => romanNumeralList.getD k ""
  if strIncludes quality "minor" || strIncludes quality "diminished" then
    jsToLower baseNumeral
  else baseNumeral

/-- The triad built at one scale index by harmonizeTriads. -/
def triadAt (scale : Scale) (index : Nat) : Chord :=
  let scaleLength := scale.notes.length
  let root := scale.notes.getD index ""
  let third := scale.notes.getD ((index + 2) % scaleLength) ""
  let fifth := scale.notes.getD ((index + 4) % scaleLength) ""
  let quality := determineTriadQuality root third fifth
  { root := root, notes := [root, third, fifth], quality := quality,
    symbol := getChordSymbol root quality,
    degree := some (getRomanNumeral (index + 1) quality),
    scaleDegree := index + 1, type := "triad" }

/-- harmonizeTriads: stack diatonic thirds inside the scale's own note
sequence.  The forEach over scale.notes is written as a map over the index
range. -/
def harmonizeTriads (scale? : Option Scale) : List Chord :=
  match scale? with
  | none => []
  | some scale =>
      if scale.notes.length < 3 then []
      else (List.range scale.notes.length).map (triadAt scale)

/-- The seventh chord built at one scale index by harmonizeSeventhChords. -/
def seventhAt (scale : Scale) (index : Nat) : Chord :=
  let scaleLength := scale.notes.length
  let root := scale.notes.getD index ""
  let third := scale.notes.getD ((index + 2) % scaleLength) ""
  let fifth := scale.notes.getD ((index + 4) % scaleLength) ""
  let seventh := scale.notes.getD ((index + 6) % scaleLength) ""
  let quality := determineSeventhQuality root third fifth seventh
  { root := root, notes := [root, third, fifth, seventh],
    quality := quality, symbol := getChordSymbol root quality,
    degree := some (getRomanNumeral (index + 1) quality),
    scaleDegree := index + 1, type := "seventh" }

/-- harmonizeSeventhChords: the same stacking extended to the seventh. -/
def harmonizeSeventhChords (scale? : Option Scale) : List Chord :=
  match scale? with
  | none => []
  | some scale =>
      if scale.notes.length < 4 then []
      else (List.range scale.notes.length).map (seventhAt scale)

example : (harmonizeTriads (generateScale "C" "major")).map Chord.quality =
    ["major", "minor", "minor", "major", "major", "minor", "diminished"] := by decide

/-! ### Extended harmony generators. -/

/-- The Roman numeral labels of getSecondaryDominants. -/
def secondaryDominantLabels : List String :=
  ["V/ii", "V/iii", "V/iv", "V/v", "V/vi", "V/vii"]

/-- The secondary dominant built for the scale note at one index. -/
def secDomAt (scale : Scale) (index : Nat) : Chord :=
  let targetNote := scale.notes.getD index ""
  let dominantRoot := mkNote (transposeNote targetNote 7)
  { root := dominantRoot,
    notes := [dominantRoot, mkNote (transposeNote dominantRoot 4),
              mkNote (transposeNote dominantRoot 7),
              mkNote (transposeNote dominantRoot 10)],
    quality := "dominant7",
    symbol := getChordSymbol dominantRoot "dominant7",
    degree := secondaryDominantLabels.get? (index - 1),
    scaleDegree := index + 1,
    type := "secondary-dominant",
    resolvesTo := some targetNote }

/-- getSecondaryDominants: for every scale note except the tonic, the
dominant seventh chord a fifth above it.  The forEach with its skip of
index 0 is written as a map over the index range 1 .. length - 1. -/
def getSecondaryDominants (scale? : Option Scale) : List Chord :=
  match scale? with
  | none => []
  | some scale =>
      if scale.notes.length < 7 then []
      else
        (List.range' 1 (scale.notes.length - 1)).map (secDomAt scale)

/-- getModalInterchangeChords: the five fixed borrowed chords relative to
the scale root (the root truthiness guard reads the empty string as the
modelled null). -/
def getModalInterchangeChords (scale? : Option Scale) : List Chord :=
  match scale? with
  | none => []
  | some scale =>
      if scale.root = "" then []
      else
        let root := scale.root
        let bIIIroot := mkNote (transposeNote root 3)
        let bVIroot := mkNote (transposeNote root 8)
        let ivRoot := mkNote (transposeNote root 5)
        let bVIIroot := mkNote (transposeNote root 10)
        let iiDimRoot := mkNote (transposeNote root 2)
        [ { root := bIIIroot,
            notes := [bIIIroot, mkNote (transposeNote bIIIroot 4), mkNote (transposeNote bIIIroot 7)],
            quality := "major", symbol := getChordSymbol bIIIroot "major" ++ " (maj7)",
            degree := some "bIII", scaleDegree := 3, type := "modal-interchange",
            chordExtension := some "maj7" },
          { root := bVIroot,
            notes := [bVIroot, mkNote (transposeNote bVIroot 4), mkNote (transposeNote bVIroot 7)],
            quality := "major", symbol := getChordSymbol bVIroot "major" ++ " (maj7)",
            degree := some "bVI", scaleDegree := 6, type := "modal-interchange",
            chordExtension := some "maj7" },
          { root := ivRoot,
            notes := [ivRoot, mkNote (transposeNote ivRoot 3), mkNote (transposeNote ivRoot 7)],
            quality := "minor", symbol := getChordSymbol ivRoot "minor" ++ " (7)",
            degree := some "iv", scaleDegree := 4, type := "modal-interchange",
            chordExtension := some "7" },
          { root := bVIIroot,
            notes := [bVIIroot, mkNote (transposeNote bVIIroot 4), mkNote (transposeNote bVIIroot 7)],
            quality := "major", symbol := getChordSymbol bVIIroot "major" ++ " (7)",
            degree := some "bVII", scaleDegree := 7, type := "modal-interchange",
            chordExtension := some "7" },
          { root := iiDimRoot,
            notes := [iiDimRoot, mkNote (transposeNote iiDimRoot 3), mkNote (transposeNote iiDimRoot 6)],
            quality := "diminished", symbol := getChordSymbol iiDimRoot "diminished" ++ " (m7♭5)",
            degree := some "ii°", scaleDegree := 2, type := "modal-interchange",
            chordExtension := some "m7♭5" } ]

/-- getNeapolitanChords: the single flat-two major chord. -/
def getNeapolitanChords (scale? : Option Scale) : List Chord :=
  match scale? with
  | none => []
  | some scale =>
      if scale.root = "" then []
      else
        let root := scale.root
        let bIIroot := mkNote (transposeNote root 1)
        [ { root := bIIroot,
            notes := [bIIroot, mkNote (transposeNote bIIroot 4), mkNote (transposeNote bIIroot 7)],
            quality := "major", symbol := getChordSymbol bIIroot "major" ++ " (Maj7)",
            degree := some "bII", scaleDegree := 2, type := "neapolitan",
            chordExtension := some "Maj7",
            chordFunction := some "Pre-dominant, resolves to V or I" } ]

/-- The Roman numeral labels of getSecondaryDiminished. -/
def secondaryDiminishedLabels : List String :=
  ["vii°/ii", "vii°/iii", "vii°/iv", "vii°/v", "vii°/vi", "vii°/vii"]

/-- The secondary diminished chord built for the scale note at one index. -/
def secDimAt (scale : Scale) (index : Nat) : Chord :=
  let targetNote := scale.notes.getD index ""
  let dimRoot := mkNote (transposeNote targetNote 11)
  { root := dimRoot,
    notes := [dimRoot, mkNote (transposeNote dimRoot 3),
              mkNote (transposeNote dimRoot 6),
              mkNote (transposeNote dimRoot 9)],
    quality := "diminished7",
    symbol := getChordSymbol dimRoot "diminished" ++ "7",
    degree := secondaryDiminishedLabels.get? (index - 1),
    scaleDegree := index + 1,
    type := "secondary-diminished",
    resolvesTo := some targetNote,
    chordFunction := some "Leading tone chord" }

/-- getSecondaryDiminished: for every scale note except the tonic, the
diminished seventh chord a half step below it. -/
def getSecondaryDiminished (scale? : Option Scale) : List Chord :=
  match scale? with
  | none => []
  | some scale =>
      if scale.notes.length < 7 then []
      else
        (List.range' 1 (scale.notes.length - 1)).map (secDimAt scale)

/-- The layer bundle returned by getProgressionLayers. -/
structure Layers where
  mainChords : List Chord
  secondaryDominants : List Chord
  modalInterchange : List Chord
  neapolitan : List Chord
  secondaryDiminished : List Chord
deriving Repr, DecidableEq

/-- getProgressionLayers. -/
def getProgressionLayers (scale? : Option Scale) : Layers :=
  { mainChords := harmonizeTriads scale?,
    secondaryDominants := getSecondaryDominants scale?,
    modalInterchange := getModalInterchangeChords scale?,
    neapolitan := getNeapolitanChords scale?,
    secondaryDiminished := getSecondaryDiminished scale? }

/-! ### Style templates and functional harmony tables. -/

/-- A template degree token: a diatonic index or a special chord label. -/
inductive DegreeTok where
  | num (n : Nat)
  | str (s : String)
deriving Repr, DecidableEq

/-- One progression template. -/
structure ProgTemplate where
  name : String
  degrees : List DegreeTok
  description : String
deriving Repr, DecidableEq

/-- One style entry of getStyleTemplates. -/
structure StyleConfig where
  name : String
  templates : List ProgTemplate
  chromaticChance : Q
  preferredCadence : String
deriving Repr, DecidableEq

/-- Shorthand for numeric template tokens. -/
def dn (n : Nat) : DegreeTok := DegreeTok.num n

/-- Shorthand for string template tokens. -/
def ds (s : String) : DegreeTok := DegreeTok.str s

/-- The pop style entry. -/
def popStyle : StyleConfig :=
  { name := "Pop/Rock",
    templates :=
      [ ⟨"Axis of Awesome", [dn 0, dn 4, dn 5, dn 3], "I-V-vi-IV (most popular)"⟩,
        ⟨"Sensitive Female", [dn 5, dn 3, dn 0, dn 4], "vi-IV-I-V"⟩,
        ⟨"50s Doo-Wop", [dn 0, dn 5, dn 3, dn 4], "I-vi-IV-V"⟩,
        ⟨"Pachelbel Canon", [dn 0, dn 4, dn 5, dn 2, dn 3, dn 0, dn 3, dn 4], "I-V-vi-iii-IV-I-IV-V"⟩,
        ⟨"Pop Punk", [dn 0, dn 3, dn 5, dn 4], "I-IV-vi-V"⟩,
        ⟨"Andalusian", [dn 5, dn 4, dn 3, dn 2], "vi-V-IV-iii (descending)"⟩,
        ⟨"Sting/Police", [dn 0, ds "bVII", dn 3, dn 0], "I-bVII-IV-I"⟩,
        ⟨"Hey Joe", [dn 0, dn 3, dn 0, dn 4, dn 0, ds "bVII", dn 0, dn 0], "I-IV-I-V-I-bVII-I"⟩,
        ⟨"Sweet Home", [dn 0, dn 0, dn 3, dn 3, dn 4, dn 4, dn 0, dn 0], "I-IV-V-I"⟩,
        ⟨"Green Day", [dn 0, dn 4, dn 1, dn 3], "I-V-ii-IV"⟩,
        ⟨"Blink-182", [dn 0, dn 3, dn 5, dn 4], "I-IV-vi-V"⟩,
        ⟨"Taylor Swift", [dn 0, dn 4, dn 2, dn 3], "I-V-ii-IV"⟩ ],
    chromaticChance := ⟨15, 100⟩,
    preferredCadence := "authentic" }

/-- The jazz style entry. -/
def jazzStyle : StyleConfig :=
  { name := "Jazz",
    templates :=
      [ ⟨"ii-V-I", [dn 1, dn 4, dn 0], "The fundamental jazz cadence"⟩,
        ⟨"ii-V-I-VI", [dn 1, dn 4, dn 0, dn 5], "Turnaround"⟩,
        ⟨"I-VI-ii-V", [dn 0, dn 5, dn 1, dn 4], "Rhythm changes A section"⟩,
        ⟨"iii-VI-ii-V", [dn 2, dn 5, dn 1, dn 4], "Extended turnaround"⟩,
        ⟨"Coltrane Changes", [dn 0, ds "V/bVI", ds "bVI", ds "V/bIII", ds "bIII", ds "V/I"], "Giant Steps pattern"⟩,
        ⟨"Bird Blues", [dn 0, ds "V/IV", dn 3, ds "iv", dn 0, ds "V/ii", dn 1, dn 4, dn 0, ds "V/ii", dn 1, dn 4], "12-bar bebop blues"⟩,
        ⟨"Modal Jazz", [dn 1, dn 4, dn 1, dn 4, dn 1, dn 4, dn 0, dn 0], "So What / Impressions"⟩,
        ⟨"Autumn Leaves", [dn 1, dn 4, dn 0, dn 3, dn 6, ds "V/ii", dn 1, dn 1], "Minor key standard"⟩,
        ⟨"Backdoor ii-V", [dn 0, ds "iv", ds "bVII", dn 0], "iv-bVII-I resolution"⟩,
        ⟨"Tritone Sub", [dn 1, ds "bII", dn 0], "ii-bII-I (tritone substitution)"⟩,
        ⟨"Lady Bird", [dn 0, ds "V/IV", dn 3, ds "V/bVI", ds "bVI", ds "V/bIII", ds "bIII", dn 0], "Tadd Dameron turnaround"⟩,
        ⟨"Confirmation", [dn 0, ds "V/ii", dn 1, dn 4, dn 0, dn 2, ds "V/ii", dn 1], "Charlie Parker changes"⟩ ],
    chromaticChance := ⟨4, 10⟩,
    preferredCadence := "ii-V-I" }

/-- The classical style entry. -/
def classicalStyle : StyleConfig :=
  { name := "Classical",
    templates :=
      [ ⟨"Authentic Cadence", [dn 0, dn 3, dn 4, dn 0], "I-IV-V-I"⟩,
        ⟨"Plagal Cadence", [dn 0, dn 4, dn 0, dn 3, dn 0], "I-V-I-IV-I"⟩,
        ⟨"Circle of Fifths", [dn 0, dn 3, dn 6, dn 2, dn 5, dn 1, dn 4, dn 0], "I-IV-vii°-iii-vi-ii-V-I"⟩,
        ⟨"Romanesca", [dn 0, dn 4, dn 5, dn 2, dn 3, dn 0, dn 3, dn 4], "Renaissance bass pattern"⟩,
        ⟨"Passamezzo", [dn 0, dn 6, dn 0, dn 4, dn 0, dn 6, dn 4, dn 0], "i-VII-i-V-i-VII-V-i"⟩,
        ⟨"Baroque Sequence", [dn 0, dn 3, dn 6, dn 2, dn 5, dn 1, dn 4, dn 0], "Descending fifths"⟩,
        ⟨"Mozart Cadence", [dn 3, ds "vii°/V", dn 4, dn 0], "IV-vii°/V-V-I with applied chord"⟩,
        ⟨"Deceptive Cadence", [dn 0, dn 3, dn 4, dn 5], "I-IV-V-vi (surprise ending)"⟩,
        ⟨"Neapolitan", [dn 0, dn 3, ds "bII", dn 4, dn 0], "I-IV-bII-V-I"⟩,
        ⟨"Augmented 6th", [dn 0, dn 3, ds "bVI", dn 4, dn 0], "With Italian/German 6th"⟩,
        ⟨"Omnibus", [dn 0, ds "V/IV", dn 3, ds "iv", dn 4, dn 0], "Chromatic omnibus progression"⟩ ],
    chromaticChance := ⟨25, 100⟩,
    preferredCadence := "authentic" }

/-- The blues style entry. -/
def bluesStyle : StyleConfig :=
  { name := "Blues",
    templates :=
      [ ⟨"12-Bar Blues", [dn 0, dn 0, dn 0, dn 0, dn 3, dn 3, dn 0, dn 0, dn 4, dn 3, dn 0, dn 4], "Standard 12-bar"⟩,
        ⟨"Quick Change", [dn 0, dn 3, dn 0, dn 0, dn 3, dn 3, dn 0, dn 0, dn 4, dn 3, dn 0, dn 4], "12-bar with quick IV"⟩,
        ⟨"8-Bar Blues", [dn 0, dn 0, dn 3, dn 3, dn 0, dn 4, dn 0, dn 4], "Shorter form"⟩,
        ⟨"Minor Blues", [dn 0, dn 0, dn 0, dn 0, dn 3, dn 3, dn 0, dn 0, ds "bVI", dn 4, dn 0, dn 4], "12-bar minor"⟩,
        ⟨"Jazz Blues", [dn 0, ds "V/IV", dn 3, ds "iv", dn 0, ds "V/ii", dn 1, dn 4, dn 0, dn 1, dn 4, dn 0], "With ii-V turnarounds"⟩,
        ⟨"Stormy Monday", [dn 0, ds "V/IV", dn 3, ds "iv", dn 0, dn 1, dn 4, dn 3, dn 0, dn 0], "T-Bone Walker changes"⟩,
        ⟨"Bird Blues", [dn 0, ds "V/IV", dn 3, ds "iv", dn 0, dn 5, dn 1, dn 4, dn 2, dn 4, dn 0, dn 4], "Bebop blues"⟩,
        ⟨"Slow Blues", [dn 0, dn 0, dn 0, dn 0, dn 3, dn 3, dn 0, dn 0, dn 4, dn 4, dn 0, dn 0], "Extended I chord"⟩ ],
    chromaticChance := ⟨2, 10⟩,
    preferredCadence := "blues" }

/-- The rhythm-and-blues style entry. -/
def rnbStyle : StyleConfig :=
  { name := "R&B/Soul",
    templates :=
      [ ⟨"Neo-Soul", [dn 1, dn 4, dn 0, dn 5], "ii-V-I-vi"⟩,
        ⟨"Motown", [dn 0, dn 0, dn 3, dn 4], "I-I-IV-V"⟩,
        ⟨"Gospel Turn", [dn 0, dn 0, ds "V/IV", dn 3], "I-I-V/IV-IV"⟩,
        ⟨"Quiet Storm", [dn 1, dn 1, dn 4, dn 0], "ii-ii-V-I"⟩,
        ⟨"Erykah Badu", [dn 1, ds "bIII", dn 4, dn 0], "ii-bIII-V-I"⟩,
        ⟨"DAngelo", [dn 0, dn 2, dn 3, dn 4], "I-iii-IV-V"⟩,
        ⟨"Stevie Wonder", [dn 0, ds "V/ii", dn 1, dn 4, dn 0, ds "bVII"], "With secondary dominants"⟩,
        ⟨"Gospel Shout", [dn 3, dn 0, dn 3, dn 0, dn 4, dn 0], "IV-I-IV-I-V-I"⟩ ],
    chromaticChance := ⟨3, 10⟩,
    preferredCadence := "plagal" }

/-- The electronic style entry. -/
def edmStyle : StyleConfig :=
  { name := "EDM/Electronic",
    templates :=
      [ ⟨"Trance", [dn 5, dn 3, dn 0, dn 4], "vi-IV-I-V"⟩,
        ⟨"House", [dn 0, dn 4, dn 5, dn 3], "I-V-vi-IV"⟩,
        ⟨"Future Bass", [dn 0, dn 5, dn 3, dn 4], "I-vi-IV-V"⟩,
        ⟨"Euphoric", [dn 5, dn 4, dn 0, ds "bVII"], "vi-V-I-bVII"⟩,
        ⟨"Dark Techno", [dn 0, ds "bVII", ds "bVI", dn 4], "i-bVII-bVI-V (phrygian)"⟩,
        ⟨"Progressive", [dn 0, dn 3, dn 5, dn 5], "I-IV-vi-vi"⟩,
        ⟨"Melodic Dubstep", [dn 5, dn 0, dn 3, dn 4], "vi-I-IV-V"⟩,
        ⟨"Tropical", [dn 0, dn 5, dn 3, dn 3], "I-vi-IV-IV"⟩ ],
    chromaticChance := ⟨1, 10⟩,
    preferredCadence := "loop" }

/-- The folk style entry. -/
def folkStyle : StyleConfig :=
  { name := "Folk/Country",
    templates :=
      [ ⟨"Three Chord", [dn 0, dn 3, dn 4, dn 0], "I-IV-V-I"⟩,
        ⟨"Nashville", [dn 0, dn 4, dn 3, dn 0], "I-V-IV-I"⟩,
        ⟨"Wagon Wheel", [dn 0, dn 4, dn 5, dn 3], "I-V-vi-IV"⟩,
        ⟨"Wildwood Flower", [dn 0, dn 0, dn 3, dn 0, dn 0, dn 4, dn 0, dn 0], "Traditional picking"⟩,
        ⟨"Irish Washerwoman", [dn 0, dn 4, dn 0, dn 3, dn 0, dn 4, dn 0, dn 0], "Celtic pattern"⟩,
        ⟨"Bluegrass", [dn 0, dn 3, dn 0, dn 4, dn 0, dn 3, dn 4, dn 0], "I-IV-I-V-I-IV-V-I"⟩,
        ⟨"Murder Ballad", [dn 0, dn 5, dn 3, dn 4], "I-vi-IV-V"⟩,
        ⟨"Mountain Modal", [dn 0, ds "bVII", dn 0, dn 3], "Mixolydian flavor"⟩ ],
    chromaticChance := ⟨5, 100⟩,
    preferredCadence := "authentic" }

/-- The metal style entry. -/
def metalStyle : StyleConfig :=
  { name := "Metal/Hard Rock",
    templates :=
      [ ⟨"Power Chord", [dn 0, ds "bVII", ds "bVI", dn 4], "i-bVII-bVI-V"⟩,
        ⟨"Djent", [dn 0, ds "bVII", dn 0, ds "bVI"], "Syncopated riff pattern"⟩,
        ⟨"Thrash", [dn 0, ds "bII", dn 0, dn 4], "i-bII-i-V"⟩,
        ⟨"Doom", [dn 0, dn 3, dn 0, ds "bVI"], "Slow and heavy"⟩,
        ⟨"Gallop", [dn 0, dn 0, ds "bVII", ds "bVII", ds "bVI", ds "bVI", dn 4, dn 4], "Iron Maiden style"⟩,
        ⟨"Prog Metal", [dn 0, dn 2, dn 5, ds "bVII", dn 3, dn 4], "Complex movement"⟩,
        ⟨"Nu Metal", [dn 0, dn 0, ds "bVII", dn 3], "Drop tuning riff"⟩,
        ⟨"Harmonic Minor", [dn 0, dn 3, dn 4, dn 0], "Neoclassical"⟩ ],
    chromaticChance := ⟨35, 100⟩,
    preferredCadence := "phrygian" }

/-- The experimental style entry. -/
def experimentalStyle : StyleConfig :=
  { name := "Experimental/Avant-garde",
    templates :=
      [ ⟨"Chromatic Planing", [dn 0, ds "bII", dn 1, ds "bIII", dn 2, ds "bVI"], "Parallel movement"⟩,
        ⟨"Whole Tone", [dn 0, ds "bIII", ds "bVI", dn 0], "Augmented harmony"⟩,
        ⟨"Quartal", [dn 0, dn 3, ds "bVII", dn 2, dn 5], "Fourth-based voicings"⟩,
        ⟨"Atonal Island", [dn 0, ds "bVI", dn 2, ds "bII", dn 4, ds "bVII"], "No clear tonal center"⟩,
        ⟨"Messiaen Mode", [dn 0, ds "bII", dn 2, dn 3, ds "bVI", dn 5], "Symmetrical patterns"⟩,
        ⟨"Coltrane Matrix", [dn 0, ds "bVI", ds "bIII", dn 0], "Major thirds cycle"⟩,
        ⟨"Negative Harmony", [dn 0, dn 3, ds "iv", dn 0], "Mirrored functions"⟩,
        ⟨"Random Walk", [], "Algorithmically generated"⟩ ],
    chromaticChance := ⟨6, 10⟩,
    preferredCadence := "none" }

/-- getStyleTemplates as an association list in object insertion order. -/
def getStyleTemplates : List (String × StyleConfig) :=
  [("pop", popStyle), ("jazz", jazzStyle), ("classical", classicalStyle),
   ("blues", bluesStyle), ("rnb", rnbStyle), ("edm", edmStyle),
   ("folk", folkStyle), ("metal", metalStyle), ("experimental", experimentalStyle)]

/-- One row of getFunctionalHarmonyRules. -/
structure HarmonyRule where
  canFollow : List String
  ruleFunction : String
deriving Repr, DecidableEq

/-- getFunctionalHarmonyRules as an association list with the exact object
keys of the source (mixed case). -/
def getFunctionalHarmonyRules : List (String × HarmonyRule) :=
  [ ("I", ⟨["V", "vii", "IV", "ii", "vi", "bVII", "bVI", "bII"], "tonic"⟩),
    ("vi", ⟨["I", "V", "IV", "iii", "bVII"], "tonic"⟩),
    ("iii", ⟨["I", "vi", "IV", "V"], "tonic"⟩),
    ("IV", ⟨["I", "vi", "ii", "iii", "bVII"], "predominant"⟩),
    ("ii", ⟨["I", "vi", "IV", "iii"], "predominant"⟩),
    ("V", ⟨["IV", "ii", "I", "vi", "bII", "bVI"], "dominant"⟩),
    ("vii", ⟨["IV", "ii", "vi"], "dominant"⟩),
    ("bVII", ⟨["I", "IV", "vi", "bVI"], "subdominant"⟩),
    ("bVI", ⟨["I", "V", "bVII", "iv"], "subdominant"⟩),
    ("bIII", ⟨["I", "bVI", "bVII"], "tonic"⟩),
    ("iv", ⟨["I", "V", "bVI", "bVII"], "predominant"⟩),
    ("bII", ⟨["IV", "ii", "I", "vi"], "predominant"⟩) ]

/-- The complexity to layer weight tables of generateAlgorithmic, in object
entry order (the order drives the cumulative scan). -/
def chromaticWeightRows (complexity : String) : List (String × Q) :=
  if complexity = "simple" then
    [("main", ⟨9, 10⟩), ("secondary", ⟨7, 100⟩), ("modal", ⟨3, 100⟩),
     ("neapolitan", ⟨0, 1⟩), ("secondaryDim", ⟨0, 1⟩)]
  else if complexity = "moderate" then
    [("main", ⟨65, 100⟩), ("secondary", ⟨18, 100⟩), ("modal", ⟨12, 100⟩),
     ("neapolitan", ⟨3, 100⟩), ("secondaryDim", ⟨2, 100⟩)]
  else if complexity = "complex" then
    [("main", ⟨4, 10⟩), ("secondary", ⟨25, 100⟩), ("modal", ⟨2, 10⟩),
     ("neapolitan", ⟨8, 100⟩), ("secondaryDim", ⟨7, 100⟩)]
  else
    [("main", ⟨65, 100⟩), ("secondary", ⟨18, 100⟩), ("modal", ⟨12, 100⟩),
     ("neapolitan", ⟨3, 100⟩), ("secondaryDim", ⟨2, 100⟩)]

/-! ### Progression composer. -/

/-- Draw one Math.random() value: the value at the current position and
the advanced position. -/
def drawQ (rs : RSeq) (p : Nat) : Q × Nat := (rs p, p + 1)

/-- countCommonTones: notes shared by exact name equality (the JS loop
counts the notes of the first list literally contained in the second). -/
def countCommonTones (notes1 notes2 : List String) : Nat :=
  (notes1.filter (fun note1 => notes2.contains note1)).length

/-- The style preference bonus table of scoreChordTransition, with the
exact object keys of the source. -/
def styleScoresTable (style : String) : List (String × Int) :=
  if style = "pop" then [("IV", 5), ("V", 5), ("vi", 8)]
  else if style = "jazz" then [("ii", 10), ("V", 8), ("vi", 5)]
  else if style = "classical" then [("V", 10), ("IV", 5), ("ii", 8)]
  else if style = "blues" then [("IV", 10), ("V", 8)]
  else if style = "folk" then [("IV", 8), ("V", 8), ("I", 5)]
  else []

/-- scoreChordTransition: common tones, bass motion and style bonus. -/
def scoreChordTransition (fromChord toChord : Chord) (style : String) : Int :=
  let commonTones : Int := (countCommonTones fromChord.notes toChord.notes : Int)
  let score0 := commonTones * 10
  let bassInterval := (getNoteIndex fromChord.root - getNoteIndex toChord.root).natAbs
  let score1 := if bassInterval = 5 ∨ bassInterval = 7 then score0 + 15 else score0
  let score2 := if bassInterval = 2 ∨ bassInterval = 1 then score1 + 10 else score1
  let score3 := if bassInterval = 0 then score2 - 20 else score2
  let toDegree := toChord.degree.map (filterDegreeChars ['I', 'V', 'X'])
  let bonus :=
    match toDegree with
    | some d => (((styleScoresTable style).find? (fun p => p.1 == d)).map (fun p => p.2)).getD 0
    | none => 0
  score3 + bonus

/-- Stable insertion of a scored chord into a descending-score list: the
element goes after every element whose score is at least its own.  Models
the stable JS Array.prototype.sort with the comparator on scores. -/
def insertScoreDesc (x : Chord × Int) : List (Chord × Int) → List (Chord × Int)
  | [] => [x]
  | y :: ys => if x.2 < y.2 then y :: insertScoreDesc x ys else x :: y :: ys

/-- Stable sort by descending score. -/
def sortByScoreDesc : List (Chord × Int) → List (Chord × Int)
  | [] => []
  | x :: xs => insertScoreDesc x (sortByScoreDesc xs)

/-- The filter of selectNextChordFunctional.  The predicate draws a random
number for a main-layer chord that violates the functional rule, so the
filter threads the draw position. -/
def filterValidChords (availableChords : List Chord) (currentChord : Chord)
    (layerKey : String) (rule? : Option HarmonyRule) (rs : RSeq) (p : Nat) :
    List Chord × Nat :=
  match availableChords with
  | [] => ([], p)
  | chord :: rest =>
      if chord.root == currentChord.root && chord.quality == currentChord.quality then
        filterValidChords rest currentChord layerKey rule? rs p
      else
        match rule? with
        | some rule =>
            if layerKey == "main" then
              if rule.canFollow.any (fun d =>
                  match chord.degree.map (filterDegreeChars ['I', 'V', 'X', 'B']) with
                  | some s => strIncludes s d
                  | none => false) then
                (chord :: (filterValidChords rest currentChord layerKey rule? rs p).1,
                  (filterValidChords rest currentChord layerKey rule? rs p).2)
              else
                if Q.ltb (rs p) ⟨2, 10⟩ then
                  (chord :: (filterValidChords rest currentChord layerKey rule? rs (p + 1)).1,
                    (filterValidChords rest currentChord layerKey rule? rs (p + 1)).2)
                else filterValidChords rest currentChord layerKey rule? rs (p + 1)
            else
              (chord :: (filterValidChords rest currentChord layerKey rule? rs p).1,
                (filterValidChords rest currentChord layerKey rule? rs p).2)
        | none =>
            (chord :: (filterValidChords rest currentChord layerKey rule? rs p).1,
              (filterValidChords rest currentChord layerKey rule? rs p).2)

/-- The cumulative weight scan of selectNextChordFunctional: layer stays
main when the loop falls through. -/
def pickLayerGo : List (String × Q) → Q → Q → String
  | [], _, _ => "main"
  | (layerName, w) :: rest, rand, cumulative =>
      let c := Q.add cumulative w
      if Q.ltb rand c then layerName else pickLayerGo rest rand c

/-- The layer switch of selectNextChordFunctional: which chord list the
drawn layer name selects. -/
def availableFor (layers : Layers) (layer : String) : List Chord :=
  if layer == "secondary" then layers.secondaryDominants
  else if layer == "modal" then layers.modalInterchange
  else if layer == "neapolitan" then layers.neapolitan
  else if layer == "secondaryDim" then layers.secondaryDiminished
  else layers.mainChords

/-- The parallel switch for the layer tag written onto the result. -/
def layerKeyFor (layer : String) : String :=
  if layer == "secondary" then "secondary"
  else if layer == "modal" then "modal"
  else if layer == "neapolitan" then "neapolitan"
  else if layer == "secondaryDim" then "secondary-dim"
  else "main"

/-- The processed degree key of the current chord (upper case, filtered to
the IVXB class, the or-idiom turning an absent or empty result into I). -/
def currentDegreeOf (c : Chord) : String :=
  match c.degree.map (filterDegreeChars ['I', 'V', 'X', 'B']) with
  | some s => if s == "" then "I" else s
  | none => "I"

/-- Rule table lookup by exact object key. -/
def ruleFor (rules : List (String × HarmonyRule)) (deg : String) :
    Option HarmonyRule :=
  (rules.find? (fun pr => pr.1 == deg)).map (fun pr => pr.2)

/-- The fallback used when rule filtering leaves nothing: any main chord
other than an exact root-and-quality repeat. -/
def fallbackChords (layers : Layers) (cur : Chord) : List Chord :=
  layers.mainChords.filter (fun c =>
    !(c.root == cur.root) || !(c.quality == cur.quality))

/-- selectNextChordFunctional: weighted layer draw, rule filtering, voice
leading scoring and a uniform draw among the top three.  none models the
JS crash of reading selected.chord when the scored list is empty or the
index falls outside it.  Draw one: the layer choice at position p; the
filter may draw more; draw last: the top-three pick. -/
def selectNextChordFunctional (currentChord : Chord) (layers : Layers)
    (weights : List (String × Q)) (rules : List (String × HarmonyRule))
    (style : String) (rs : RSeq) (p : Nat) : Option (Chord × Nat) :=
  let layer := pickLayerGo weights (rs p) ⟨0, 1⟩
  let availableChords := availableFor layers layer
  let layerKey := layerKeyFor layer
  let rule? := ruleFor rules (currentDegreeOf currentChord)
  let validChords0 := (filterValidChords availableChords currentChord layerKey rule? rs (p + 1)).1
  let p2 := (filterValidChords availableChords currentChord layerKey rule? rs (p + 1)).2
  let validChords :=
    if validChords0.isEmpty then fallbackChords layers currentChord else validChords0
  let scored := validChords.map (fun chord =>
    (chord, scoreChordTransition currentChord chord style))
  let sorted := sortByScoreDesc scored
  let topN := min 3 sorted.length
  let idx := Q.floor (Q.mul (rs p2) (Q.ofNat topN))
  if idx < 0 then none
  else
    match sorted.get? idx.toNat with
    | some selected => some (chordWithLayer selected.1 layerKey, p2 + 1)
    | none => none

/-- selectCadentialChord: cadence handling by position kind. -/
def selectCadentialChord (lastChord : Chord) (layers : Layers)
    (styleConfig : StyleConfig) (cadenceType : String) (rs : RSeq) (p : Nat) :
    Chord × Nat :=
  if cadenceType = "final" then
    let (r, p1) := drawQ rs p
    if Q.ltb r ⟨9, 10⟩ then (chordWithLayer (layers.mainChords.getD 0 spreadUndefChord) "main", p1)
    else (chordWithLayer (layers.mainChords.getD 5 spreadUndefChord) "main", p1)
  else if cadenceType = "penultimate" then
    if styleConfig.preferredCadence = "plagal" ∨ styleConfig.preferredCadence = "blues" then
      (chordWithLayer (layers.mainChords.getD 3 spreadUndefChord) "main", p)
    else if styleConfig.preferredCadence = "ii-V-I" then
      if lastChord.scaleDegree = 2 then
        (chordWithLayer (layers.mainChords.getD 4 spreadUndefChord) "main", p)
      else (chordWithLayer (layers.mainChords.getD 1 spreadUndefChord) "main", p)
    else if styleConfig.preferredCadence = "phrygian" then
      (chordWithLayer (layers.neapolitan.getD 0 spreadUndefChord) "neapolitan", p)
    else (chordWithLayer (layers.mainChords.getD 4 spreadUndefChord) "main", p)
  else if cadenceType = "half" then
    let (r, p1) := drawQ rs p
    if Q.ltb r ⟨7, 10⟩ then (chordWithLayer (layers.mainChords.getD 4 spreadUndefChord) "main", p1)
    else (chordWithLayer (layers.mainChords.getD 5 spreadUndefChord) "main", p1)
  else (chordWithLayer (layers.mainChords.getD 0 spreadUndefChord) "main", p)

/-- degreeToIndex: Roman numeral token to diatonic index. -/
def degreeToIndex (degree : String) : Option Nat :=
  ([("I", 0), ("i", 0), ("II", 1), ("ii", 1), ("III", 2), ("iii", 2),
    ("IV", 3), ("iv", 3), ("V", 4), ("v", 4), ("VI", 5), ("vi", 5),
    ("VII", 6), ("vii", 6)].find? (fun pr => pr.1 == degree)).map (fun pr => pr.2)

/-- The token to index map for the five modal interchange chords. -/
def modalMapTable : List (String × Nat) :=
  [("bIII", 0), ("bVI", 1), ("iv", 2), ("bVII", 3), ("ii°", 4)]

/-- resolveSpecialChord: parse a string token by prefix; a failed branch
falls through to the next one and the last resort is the tonic.  The
secondary lookups index at target minus one, so a target index of zero
reads outside the array in JS (undefined) and falls through. -/
def resolveSpecialChord (notat : String) (layers : Layers) : Chord :=
  let secDomPick : Option Chord :=
    if strStartsWith notat "V/" then
      match degreeToIndex (strDrop notat 2) with
      | some targetIndex =>
          if 1 ≤ targetIndex then layers.secondaryDominants.get? (targetIndex - 1) else none
      | none => none
    else none
  match secDomPick with
  | some c => chordWithLayer c "secondary"
  | none =>
    let secDimPick : Option Chord :=
      if strStartsWith notat "vii°/" then
        match degreeToIndex (strDrop notat 5) with
        | some targetIndex =>
            if 1 ≤ targetIndex then layers.secondaryDiminished.get? (targetIndex - 1) else none
        | none => none
      else none
    match secDimPick with
    | some c => chordWithLayer c "secondary-dim"
    | none =>
      let modalPick : Option Chord :=
        match (modalMapTable.find? (fun pr => pr.1 == notat)).map (fun pr => pr.2) with
        | some i => layers.modalInterchange.get? i
        | none => none
      match modalPick with
      | some c => chordWithLayer c "modal"
      | none =>
        match (if notat == "bII" then layers.neapolitan.get? 0 else none) with
        | some c => chordWithLayer c "neapolitan"
        | none => chordWithLayer (layers.mainChords.getD 0 spreadUndefChord) "main"

/-- templateToChords: resolve each token; a numeric token outside the main
chord list resolves to undefined and is skipped by the truthiness test, so
the push loop is a filterMap.  String tokens always produce a chord, whose
layer tag the or-idiom keeps. -/
def templateTokToChord (layers : Layers) : DegreeTok → Option Chord
  | DegreeTok.num d => (layers.mainChords.get? d).map (fun c => chordWithLayer c "main")
  | DegreeTok.str s =>
      let chord := resolveSpecialChord s layers
      some { chord with layer := some (chord.layer.getD "main") }

/-- templateToChords. -/
def templateToChords (degrees : List DegreeTok) (layers : Layers) : List Chord :=
  degrees.filterMap (templateTokToChord layers)

/-- applyComplexityVariation: with a complexity-scaled probability replace
a non-tonic chord by the secondary dominant resolving to it (the random
draw happens on every call, the replacement only when the guard holds).
The resolvesToNext field the source attaches to the replacement is never
read by the engine and is not modelled. -/
def applyComplexityVariation (chord : Chord) (layers : Layers)
    (complexity : String) (styleConfig : StyleConfig) (rs : RSeq) (p : Nat) :
    Chord × Nat :=
  let chromaticChance :=
    if complexity = "simple" then Q.mul styleConfig.chromaticChance ⟨3, 10⟩
    else if complexity = "moderate" then styleConfig.chromaticChance
    else if complexity = "complex" then Q.mul styleConfig.chromaticChance ⟨15, 10⟩
    else styleConfig.chromaticChance
  let (r, p1) := drawQ rs p
  if Q.ltb r chromaticChance && decide (1 < chord.scaleDegree) then
    match layers.secondaryDominants.find? (fun sd => sd.resolvesTo == some chord.root) with
    | some secDom => (chordWithLayer secDom "secondary", p1)
    | none => (chord, p1)
  else (chord, p1)

/-- JS truthiness of an optional string field. -/
def truthyOpt (o : Option String) : Bool :=
  match o with
  | some s => !(s == "")
  | none => false

/-- The mismatch test of ensureChromaticResolution: no successor, or a
successor whose root differs from the resolution target (a strict
comparison of the root string against the possibly absent target). -/
def nextMismatchOf (chord : Chord) (nextChord? : Option Chord) : Bool :=
  match nextChord? with
  | none => true
  | some n => !(some n.root == chord.resolvesTo)

/-- First if-block of the resolution pass body: the secondary dominant
annotation, which also requires a main chord with the target root and
room after the current position (the source condition
resolved.length < progression.length). -/
def annoSD (chord : Chord) (nextMismatch : Bool) (hasRoom : Bool)
    (layers : Layers) : Chord :=
  if chord.type == "secondary-dominant" && truthyOpt chord.resolvesTo then
    if nextMismatch then
      match layers.mainChords.find? (fun c => some c.root == chord.resolvesTo) with
      | some _ =>
          if hasRoom && nextMismatch then { chord with expectsResolution := chord.resolvesTo }
          else chord
      | none => chord
    else chord
  else chord

/-- Second if-block: the secondary diminished annotation. -/
def annoSDim (chord : Chord) (nextMismatch : Bool) : Chord :=
  if chord.type == "secondary-diminished" && truthyOpt chord.resolvesTo then
    if nextMismatch then { chord with expectsResolution := chord.resolvesTo } else chord
  else chord

/-- Third if-block: the Neapolitan annotation, applied only when a
successor exists and sits on neither the fifth nor the first degree. -/
def annoNeap (chord : Chord) (nextChord? : Option Chord) : Chord :=
  if chord.type == "neapolitan" then
    match nextChord? with
    | some n =>
        if !(n.scaleDegree == 5) && !(n.scaleDegree == 1) then
          { chord with expectsResolution := some "V or I" }
        else chord
    | none => chord
  else chord

/-- The per-chord body of ensureChromaticResolution: the three if-blocks
in source order.  hasRoom is the source condition
resolved.length < progression.length, which at position i is
i + 1 < length.  The source mutates the chord in place; the model returns
the updated chord.  The mismatch test always reads resolvesTo, which no
block ever modifies, so computing it once is the source behaviour. -/
def annotateChord (chord : Chord) (nextChord? : Option Chord) (hasRoom : Bool)
    (layers : Layers) : Chord :=
  let nextMismatch := nextMismatchOf chord nextChord?
  annoNeap (annoSDim (annoSD chord nextMismatch hasRoom layers) nextMismatch) nextChord?

/-- ensureChromaticResolution: one annotation pass over the progression. -/
def ensureChromaticResolution (progression : List Chord) (layers : Layers) :
    List Chord :=
  (List.range progression.length).map (fun i =>
    annotateChord (progression.getD i spreadUndefChord) (progression.get? (i + 1))
      (decide (i + 1 < progression.length)) layers)

/-- The forced-resolution override of generateAlgorithmic: when the chord
just pushed is a secondary dominant or secondary diminished chord and a
main chord with its target root exists, that main chord replaces whatever
the cadence or weighted selection chose. -/
def overrideResolution (layers : Layers) (lastChord : Chord) (chosen : Chord) : Chord :=
  if lastChord.type == "secondary-dominant" || lastChord.type == "secondary-diminished" then
    match layers.mainChords.find? (fun c => some c.root == lastChord.resolvesTo) with
    | some resolution => chordWithLayer resolution "main"
    | none => chosen
  else chosen

/-- The doubly nested phrase loop of generateAlgorithmic visits the
positions i = 1 .. length - 1 in order (each inner loop starts at the
current progression length); position i lies in phrase i / 4.  The
accumulator is kept in reverse order so its head is the last chord
pushed.  fuel is the number of positions still to fill. -/
def algBuild (length : Nat) (style : String) (layers : Layers)
    (styleConfig : StyleConfig) (rules : List (String × HarmonyRule))
    (weights : List (String × Q)) (rs : RSeq) :
    Nat → Nat → List Chord → Nat → Option (List Chord × Nat)
  | _, 0, acc, p => some (acc, p)
  | i, Nat.succ fuelRest, acc, p =>
      match acc with
      | [] => none
      | lastChord :: _ =>
          let numPhrases := (length + 3) / 4
          let isLastInPhrase := i % 4 == 3
          let isLastPhrase := i / 4 == numPhrases - 1
          let isLastChord := i == length - 1
          let isPenultimate := i == length - 2
          let selected? : Option (Chord × Nat) :=
            if isLastChord then
              some (selectCadentialChord lastChord layers styleConfig "final" rs p)
            else if isPenultimate then
              some (selectCadentialChord lastChord layers styleConfig "penultimate" rs p)
            else if isLastInPhrase && !isLastPhrase then
              some (selectCadentialChord lastChord layers styleConfig "half" rs p)
            else
              selectNextChordFunctional lastChord layers weights rules style rs p
          match selected? with
          | none => none
          | some (chosen, p1) =>
              algBuild length style layers styleConfig rules weights rs
                (i + 1) fuelRest (overrideResolution layers lastChord chosen :: acc) p1

/-- generateAlgorithmic: start on the tonic, fill the remaining positions
through the phrase loop, cut to length and run the resolution pass. -/
def generateAlgorithmic (_scale? : Option Scale) (length : Nat)
    (complexity style : String) (layers : Layers) (styleConfig : StyleConfig)
    (rs : RSeq) (p : Nat) : Option (List Chord × Nat) :=
  let rules := getFunctionalHarmonyRules
  let weights := chromaticWeightRows complexity
  let firstChord := chordWithLayer (layers.mainChords.getD 0 spreadUndefChord) "main"
  match algBuild length style layers styleConfig rules weights rs 1 (length - 1) [firstChord] p with
  | none => none
  | some (accRev, p') =>
      some (ensureChromaticResolution (accRev.reverse.take length) layers, p')

/-- The tiling loop of generateFromTemplate: the chord pushed at position
i is the template expansion at index i modulo its length (the while loop
replays the expansion in order until the target length is reached), passed
through applyComplexityVariation. -/
def tileFrom (base : List Chord) (layers : Layers) (complexity : String)
    (styleConfig : StyleConfig) (rs : RSeq) :
    Nat → Nat → Nat → List Chord × Nat
  | _, 0, p => ([], p)
  | i, Nat.succ k, p =>
      ((applyComplexityVariation (base.getD (i % base.length) spreadUndefChord)
          layers complexity styleConfig rs p).1 ::
        (tileFrom base layers complexity styleConfig rs (i + 1) k
          (applyComplexityVariation (base.getD (i % base.length) spreadUndefChord)
            layers complexity styleConfig rs p).2).1,
       (tileFrom base layers complexity styleConfig rs (i + 1) k
          (applyComplexityVariation (base.getD (i % base.length) spreadUndefChord)
            layers complexity styleConfig rs p).2).2)

/-- generateFromTemplate: pick a random template that fits, expand it,
tile it to the target length and run the resolution pass.  An empty
expansion would make the source while loop spin forever; that case is
none. -/
def generateFromTemplate (scale? : Option Scale) (length : Nat)
    (complexity style : String) (layers : Layers) (styleConfig : StyleConfig)
    (rs : RSeq) (p : Nat) : Option (List Chord × Nat) :=
  let validTemplates := styleConfig.templates.filter (fun t =>
    decide (0 < t.degrees.length) && decide (t.degrees.length ≤ length))
  if validTemplates.isEmpty then
    generateAlgorithmic scale? length complexity style layers styleConfig rs p
  else
    let idx := Q.floor (Q.mul (rs p) (Q.ofNat validTemplates.length))
    if idx < 0 then none
    else
      match validTemplates.get? idx.toNat with
      | none => none
      | some template =>
          let baseProgression := templateToChords template.degrees layers
          if baseProgression.isEmpty then none
          else
            some (ensureChromaticResolution
              (tileFrom baseProgression layers complexity styleConfig rs 0 length (p + 1)).1 layers,
              (tileFrom baseProgression layers complexity styleConfig rs 0 length (p + 1)).2)

/-- generateProgression: derive the layers, look the style up (falling
back to pop) and draw the strategy choice. -/
def generateProgression (scale? : Option Scale) (length : Nat)
    (complexity style : String) (rs : RSeq) (p : Nat) :
    Option (List Chord × Nat) :=
  let layers := getProgressionLayers scale?
  let styleConfig := ((getStyleTemplates.find? (fun pr => pr.1 == style)).map (fun pr => pr.2)).getD popStyle
  if Q.ltb (rs p) ⟨7, 10⟩ && decide (0 < styleConfig.templates.length) then
    generateFromTemplate scale? length complexity style layers styleConfig rs (p + 1)
  else
    generateAlgorithmic scale? length complexity style layers styleConfig rs (p + 1)

/-! ### Analyzer pieces used by the claims. -/

/-- The transition record of analyzeTransition. -/
structure TransitionAnalysis where
  commonTones : Nat
  quality : String
  voiceLeading : String
deriving Repr, DecidableEq

/-- analyzeTransition: common tone count classified into disjunct, smooth
and very smooth. -/
def analyzeTransition (chord1 chord2 : Chord) : TransitionAnalysis :=
  let commonTones := countCommonTones chord1.notes chord2.notes
  let quality :=
    if commonTones = 0 then "disjunct"
    else if 2 ≤ commonTones then "very smooth"
    else "smooth"
  { commonTones := commonTones, quality := quality, voiceLeading := quality }

/-! ### Supporting lemmas: pitch arithmetic. -/

/-- An indexOf result is the sentinel or a position inside the list. -/
theorem listIndexOf_bounds (l : List String) (x : String) :
    listIndexOf l x = -1 ∨ (0 ≤ listIndexOf l x ∧ listIndexOf l x < l.length) := by
  induction l with
  | nil => exact Or.inl rfl
  | cons y ys ih =>
      unfold listIndexOf
      by_cases hy : y = x
      · simp [hy]
      · simp only [if_neg hy]
        rcases ih with h | ⟨h0, h1⟩
        · simp [h]
        · have hne : listIndexOf ys x ≠ -1 := by omega
          simp only [if_neg hne, List.length_cons]
          right
          push_cast
          omega

/-- A getNoteIndex result is the sentinel or a chromatic index. -/
theorem getNoteIndex_bounds (note : String) :
    getNoteIndex note = -1 ∨ (0 ≤ getNoteIndex note ∧ getNoteIndex note < 12) := by
  have h12 : NOTES.length = 12 := by decide
  unfold getNoteIndex
  rcases listIndexOf_bounds NOTES note with h | ⟨h0, h1⟩
  · rw [if_pos h]
    cases hf : ALTERNATE_NAMES.find? (fun p => p.2 == note) with
    | none => exact Or.inl rfl
    | some p =>
        show listIndexOf NOTES p.1 = -1 ∨
          (0 ≤ listIndexOf NOTES p.1 ∧ listIndexOf NOTES p.1 < 12)
        rcases listIndexOf_bounds NOTES p.1 with h' | ⟨h0', h1'⟩
        · exact Or.inl h'
        · exact Or.inr ⟨h0', by rw [h12] at h1'; omega⟩
  · rw [if_neg (by omega)]
    rw [h12] at h1
    exact Or.inr ⟨h0, by omega⟩

/-- Every entry of the sharp table evaluates back to its own position. -/
theorem getNoteIndex_of_NOTES :
    ∀ j : Nat, j < 12 → ∃ t, NOTES.get? j = some t ∧ getNoteIndex t = (j : Int) := by decide

/-- A nonnegative truncated remainder by twelve agrees with emod. -/
theorem tmod_twelve_eq_emod (a : Int) (ha : 0 ≤ a) :
    Int.tmod a 12 = Int.emod a 12 := by
  obtain ⟨m, rfl⟩ : ∃ m : Nat, a = (m : Int) := ⟨a.toNat, (Int.toNat_of_nonneg ha).symm⟩
  rfl

/-- transposeNote succeeds on a recognised note for any shift of at least
minus twelve, and the result sits at the expected chromatic index. -/
theorem transposeNote_spec (note : String) (s : Int)
    (hval : getNoteIndex note ≠ -1) (hs : -12 ≤ s) :
    ∃ t, transposeNote note s = some t ∧
      getNoteIndex t = Int.emod (getNoteIndex note + s) 12 ∧ t ∈ NOTES := by
  rcases getNoteIndex_bounds note with h | ⟨h0, h1⟩
  · exact absurd h hval
  · unfold transposeNote
    simp only [if_neg hval]
    have ha : 0 ≤ getNoteIndex note + s + 12 := by omega
    have htm : Int.tmod (getNoteIndex note + s + 12) 12 =
        Int.emod (getNoteIndex note + s + 12) 12 := tmod_twelve_eq_emod _ ha
    have hem : Int.emod (getNoteIndex note + s + 12) 12 =
        Int.emod (getNoteIndex note + s) 12 := by
      rw [show getNoteIndex note + s + 12 = getNoteIndex note + s + 12 * 1 by ring]
      exact Int.add_mul_emod_self_left (getNoteIndex note + s) 12 1
    have hrange : 0 ≤ Int.emod (getNoteIndex note + s) 12 ∧
        Int.emod (getNoteIndex note + s) 12 < 12 := by
      constructor
      · exact Int.emod_nonneg _ (by norm_num)
      · exact Int.emod_lt_of_pos _ (by norm_num)
    rw [htm, hem]
    have hnlt : ¬ Int.emod (getNoteIndex note + s) 12 < 0 := by omega
    simp only [if_neg hnlt]
    have hjlt : (Int.emod (getNoteIndex note + s) 12).toNat < 12 := by omega
    obtain ⟨t, hget, hidx⟩ := getNoteIndex_of_NOTES _ hjlt
    refine ⟨t, hget, ?_, List.get?_mem hget⟩
    rw [hidx, Int.toNat_of_nonneg hrange.1]

/-- Every sharp-table name is recognised. -/
theorem mem_NOTES_valid : ∀ t ∈ NOTES, getNoteIndex t ≠ -1 := by decide

/-! ### Claim theorems: C5 and C6. -/

/-- C5: harmonizing the C major scale gives the triad qualities
major, minor, minor, major, major, minor, diminished for degrees one to
seven, the seventh triad being B D F classified diminished, and the
seventh chords carry the symbols Cmaj7, Dm7, Em7, Fmaj7, G7, Am7 and
Bm7♭5 (the source spells the flat five suffix with the flat sign). -/
theorem c5_cMajorHarmonization :
    (harmonizeTriads (generateScale "C" "major")).map Chord.quality =
      ["major", "minor", "minor", "major", "major", "minor", "diminished"] ∧
    ((harmonizeTriads (generateScale "C" "major")).get? 6).map
      (fun c => (c.root, c.notes, c.quality)) =
      some ("B", ["B", "D", "F"], "diminished") ∧
    (harmonizeSeventhChords (generateScale "C" "major")).map Chord.symbol =
      ["Cmaj7", "Dm7", "Em7", "Fmaj7", "G7", "Am7", "Bm7♭5"] := by
  refine ⟨by decide, by decide, by decide⟩

/-- C6: generateScale produces exactly the expected note sequences for C
major and A natural minor. -/
theorem c6_generateScaleExamples :
    (generateScale "C" "major").map Scale.notes =
      some ["C", "D", "E", "F", "G", "A", "B"] ∧
    (generateScale "A" "naturalMinor").map Scale.notes =
      some ["A", "B", "C", "D", "E", "F", "G"] := by
  refine ⟨by decide, by decide⟩

/-! ### Claim C7: transpose index identity. -/

/-- C7 counterexample: transposing C by minus thirteen makes the truncated
remainder negative, the array read comes back undefined (none), and no
note with the mathematically expected index 11 is returned. -/
theorem c7_counterexample_negativeShift :
    transposeNote "C" (-13) = none ∧
    Int.emod (getNoteIndex "C" + (-13)) 12 = 11 ∧
    ¬ ∃ t, transposeNote "C" (-13) = some t ∧
      getNoteIndex t = Int.emod (getNoteIndex "C" + (-13)) 12 := by
  refine ⟨by decide, by decide, ?_⟩
  rintro ⟨t, ht, -⟩
  simpa using ht.symm.trans (by decide : transposeNote "C" (-13) = none)

/-- C7 amended: for every recognised root and every shift of at least
minus twelve (the source adds a single twelve before taking the truncated
remainder, so only one wrap is compensated), the transposed note exists
and its chromatic index is the mathematical residue of index plus shift. -/
theorem c7_amended_transposeIndex (note : String) (s : Int)
    (hval : getNoteIndex note ≠ -1) (hs : -12 ≤ s) :
    ∃ t, transposeNote note s = some t ∧
      getNoteIndex t = Int.emod (getNoteIndex note + s) 12 := by
  obtain ⟨t, h1, h2, -⟩ := transposeNote_spec note s hval hs
  exact ⟨t, h1, h2⟩

/-- Witness for the amended C7 at a flat-named root and a positive shift. -/
theorem c7_amended_witness :
    ∃ t, transposeNote "Bb" 5 = some t ∧
      getNoteIndex t = Int.emod (getNoteIndex "Bb" + 5) 12 :=
  c7_amended_transposeIndex "Bb" 5 (by decide) (by decide)

/-! ### Claim C4: behaviour on null or malformed scales. -/

/-- C4 counterexample: all six harmony generators, called on a null scale,
silently return the empty list instead of raising. -/
theorem c4_counterexample_nullScaleSilent :
    harmonizeTriads none = [] ∧ harmonizeSeventhChords none = [] ∧
    getSecondaryDominants none = [] ∧ getModalInterchangeChords none = [] ∧
    getNeapolitanChords none = [] ∧ getSecondaryDiminished none = [] :=
  ⟨rfl, rfl, rfl, rfl, rfl, rfl⟩

/-- C4 amended: on a null scale, or on a malformed scale record with no
notes and an empty root, every generator logs and returns the empty list
(fails soft), never an exception. -/
theorem c4_amended_failSoft (scale? : Option Scale)
    (hbad : scale? = none ∨
      ∃ sc, scale? = some sc ∧ sc.notes.length < 3 ∧ sc.root = "") :
    harmonizeTriads scale? = [] ∧ harmonizeSeventhChords scale? = [] ∧
    getSecondaryDominants scale? = [] ∧ getModalInterchangeChords scale? = [] ∧
    getNeapolitanChords scale? = [] ∧ getSecondaryDiminished scale? = [] := by
  rcases hbad with rfl | ⟨sc, rfl, hlen, hroot⟩
  · exact ⟨rfl, rfl, rfl, rfl, rfl, rfl⟩
  · refine ⟨?_, ?_, ?_, ?_, ?_, ?_⟩
    · simp [harmonizeTriads, if_pos hlen]
    · simp [harmonizeSeventhChords, if_pos (by omega : sc.notes.length < 4)]
    · simp [getSecondaryDominants, if_pos (by omega : sc.notes.length < 7)]
    · simp [getModalInterchangeChords, hroot]
    · simp [getNeapolitanChords, hroot]
    · simp [getSecondaryDiminished, if_pos (by omega : sc.notes.length < 7)]

/-- Witness for the amended C4 at a concrete malformed scale record. -/
theorem c4_amended_witness :
    harmonizeTriads (some ⟨"", "major", "", [], [], [], "", ""⟩) = [] ∧
    harmonizeSeventhChords (some ⟨"", "major", "", [], [], [], "", ""⟩) = [] ∧
    getSecondaryDominants (some ⟨"", "major", "", [], [], [], "", ""⟩) = [] ∧
    getModalInterchangeChords (some ⟨"", "major", "", [], [], [], "", ""⟩) = [] ∧
    getNeapolitanChords (some ⟨"", "major", "", [], [], [], "", ""⟩) = [] ∧
    getSecondaryDiminished (some ⟨"", "major", "", [], [], [], "", ""⟩) = [] :=
  c4_amended_failSoft _ (Or.inr ⟨_, rfl, by decide, rfl⟩)

/-! ### Claim C3: the secondary dominant layer. -/

/-- C3 counterexample: the eight-note diminished scale has at least seven
notes, yet getSecondaryDominants returns seven chords, not six. -/
theorem c3_counterexample_eightNotes :
    (generateScale "C" "diminished").map (fun sc => sc.notes.length) = some 8 ∧
    (getSecondaryDominants (generateScale "C" "diminished")).length = 7 := by
  refine ⟨by decide, by decide⟩

/-- Length of a unit-step range. -/
theorem length_range1 (s n : Nat) : (List.range' s n).length = n :=
  List.length_range' s 1 n

/-- Entry of a unit-step range. -/
theorem get?_range1 (s n m : Nat) (h : m < n) :
    (List.range' s n).get? m = some (s + m) := by
  have := List.get?_range' s 1 (m := m) (n := n) h
  simpa using this

/-- C3 amended: for a scale of at least seven recognised notes the layer
holds one chord per non-tonic note (so length minus one chords, six
exactly when the scale has exactly seven notes); the chord for target T
has root transpose of T by seven, a dominant seventh shape of offsets
zero, four, seven and ten from its root, quality dominant7 and resolvesTo
T.  In C major the chord resolving to D is A7 with notes A, C sharp, E
and G. -/
theorem c3_amended_secondaryDominants :
    (∀ (sc : Scale), 7 ≤ sc.notes.length →
      (∀ n ∈ sc.notes, getNoteIndex n ≠ -1) →
      (getSecondaryDominants (some sc)).length = sc.notes.length - 1 ∧
      (∀ j c, (getSecondaryDominants (some sc)).get? j = some c →
        ∃ T, sc.notes.get? (j + 1) = some T ∧
          transposeNote T 7 = some c.root ∧
          c.quality = "dominant7" ∧ c.type = "secondary-dominant" ∧
          c.resolvesTo = some T ∧
          ∃ t4 t7 t10, transposeNote c.root 4 = some t4 ∧
            transposeNote c.root 7 = some t7 ∧ transposeNote c.root 10 = some t10 ∧
            c.notes = [c.root, t4, t7, t10])) ∧
    (getSecondaryDominants (generateScale "C" "major")).get? 0 =
      some { root := "A", notes := ["A", "C#", "E", "G"], quality := "dominant7",
             symbol := "A7", degree := some "V/ii", scaleDegree := 2,
             type := "secondary-dominant", resolvesTo := some "D" } := by
  constructor
  · intro sc h7 hv
    have hguard : ¬ sc.notes.length < 7 := by omega
    constructor
    · simp only [getSecondaryDominants, if_neg hguard, List.length_map, length_range1]
    · intro j c hc
      simp only [getSecondaryDominants, if_neg hguard, List.get?_map] at hc
      by_cases hj : j < sc.notes.length - 1
      · rw [get?_range1 _ _ _ hj] at hc
        simp only [Option.map_some', Option.some.injEq] at hc
        have hj1 : j + 1 < sc.notes.length := by omega
        obtain ⟨T, hT⟩ : ∃ T, sc.notes.get? (j + 1) = some T := by
          cases hg : sc.notes.get? (j + 1) with
          | none => exact absurd (List.get?_eq_none.mp hg) (by omega)
          | some T => exact ⟨T, rfl⟩
        have hTd : sc.notes.getD (1 + j) "" = T := by
          rw [List.getD_eq_get?, Nat.add_comm 1 j, hT]; rfl
        have hTv : getNoteIndex T ≠ -1 := hv T (List.get?_mem hT)
        obtain ⟨r, hr, -, hrmem⟩ := transposeNote_spec T 7 hTv (by norm_num)
        have hrv : getNoteIndex r ≠ -1 := mem_NOTES_valid r hrmem
        obtain ⟨t4, h4, -, -⟩ := transposeNote_spec r 4 hrv (by norm_num)
        obtain ⟨t7, h7', -, -⟩ := transposeNote_spec r 7 hrv (by norm_num)
        obtain ⟨t10, h10, -, -⟩ := transposeNote_spec r 10 hrv (by norm_num)
        subst hc
        refine ⟨T, hT, ?_, rfl, rfl, ?_, t4, t7, t10, ?_, ?_, ?_, ?_⟩ <;>
          simp only [secDomAt, hTd, hr, mkNote, Option.getD_some, h4, h7', h10]
      · rw [List.get?_eq_none.mpr (by rw [length_range1]; omega)] at hc
        exact absurd hc (by simp)
  · decide

/-- The scale record generateScale produces for C major. -/
def cMajorScale : Scale :=
  { root := "C", type := "major", name := "Major Scale (Ionian)",
    notes := ["C", "D", "E", "F", "G", "A", "B"],
    degrees := ["1", "2", "3", "4", "5", "6", "7"],
    intervals := [0, 2, 4, 5, 7, 9, 11],
    formula := "W-W-H-W-W-W-H", category := "major" }

example : generateScale "C" "major" = some cMajorScale := by decide

/-- Witness for the amended C3: the C major scale yields six secondary
dominants, one per non-tonic degree. -/
theorem c3_amended_witness :
    (getSecondaryDominants (some cMajorScale)).length = cMajorScale.notes.length - 1 :=
  (c3_amended_secondaryDominants.1 cMajorScale (by decide) (by decide)).1

/-! ### Claim C9: the Roman numeral case rule. -/

/-- C9: for degrees one to seven the numeral is the base table entry,
lower cased exactly when the quality name contains minor or diminished as
a substring; an unknown quality keeps upper case while minorMajor7 and
diminished7 are lower cased. -/
theorem c9_romanNumeralCaseRule :
    (∀ (d : Nat) (q : String), 1 ≤ d → d ≤ 7 →
      getRomanNumeral d q =
        (if strIncludes q "minor" || strIncludes q "diminished" then
          jsToLower (romanNumeralList.getD (d - 1) "")
        else romanNumeralList.getD (d - 1) "")) ∧
    getRomanNumeral 2 "unknown" = "II" ∧
    getRomanNumeral 2 "minorMajor7" = "ii" ∧
    getRomanNumeral 2 "diminished7" = "ii" ∧
    getRomanNumeral 7 "unknown" = "VII" ∧
    getRomanNumeral 7 "halfDiminished7" = "VII" := by
  refine ⟨?_, by decide, by decide, by decide, by decide, by decide⟩
  intro d q h1 _
  obtain ⟨k, rfl⟩ : ∃ k, d = k + 1 := ⟨d - 1, by omega⟩
  simp only [getRomanNumeral, Nat.add_sub_cancel]

/-- Witness for C9 at degree five with a quality containing neither
substring. -/
theorem c9_romanNumeralCaseRule_witness :
    getRomanNumeral 5 "dominant7" =
      (if strIncludes "dominant7" "minor" || strIncludes "dominant7" "diminished" then
        jsToLower (romanNumeralList.getD 4 "")
      else romanNumeralList.getD 4 "") :=
  c9_romanNumeralCaseRule.1 5 "dominant7" (by decide) (by decide)

/-! ### Claim C10: common tones by exact spelling. -/

/-- C10: countCommonTones counts notes of the first list literally present
in the second (exact name equality), so two chords sharing a pitch class
only under different enharmonic spellings score zero.  Concretely, in F
major (a flat key) the IV triad is spelled with Bb while the secondary
diminished chord aimed at the sixth degree carries the transposeNote
spelling A sharp; the pitch class is shared, the analyzed transition still
reports zero common tones and disjunct voice leading.  transposeNote only
ever returns sharp-table names. -/
theorem c10_commonTonesExactSpelling :
    (∀ notes1 notes2 : List String,
      (∀ n ∈ notes1, notes2.contains n = false) →
      countCommonTones notes1 notes2 = 0) ∧
    (∀ (note : String) (s : Int) (t : String),
      transposeNote note s = some t → t ∈ NOTES) ∧
    ((harmonizeTriads (generateScale "F" "major")).getD 3 spreadUndefChord).notes =
      ["Bb", "D", "F"] ∧
    ((getSecondaryDiminished (generateScale "F" "major")).getD 4 spreadUndefChord).notes =
      ["C#", "E", "G", "A#"] ∧
    analyzeTransition ((harmonizeTriads (generateScale "F" "major")).getD 3 spreadUndefChord)
        ((getSecondaryDiminished (generateScale "F" "major")).getD 4 spreadUndefChord) =
      ⟨0, "disjunct", "disjunct"⟩ ∧
    getNoteIndex "Bb" = getNoteIndex "A#" ∧ ("Bb" : String) ≠ "A#" := by
  refine ⟨?_, ?_, by decide, by decide, by decide, by decide, by decide⟩
  · intro notes1 notes2 h
    unfold countCommonTones
    rw [List.filter_eq_nil.mpr ?_]
    · rfl
    · intro a ha
      simpa using h a ha
  · intro note s t ht
    simp only [transposeNote] at ht
    split at ht
    · exact absurd ht (by simp)
    · split at ht
      · exact absurd ht (by simp)
      · exact List.get?_mem ht

/-- Witness for C10 instantiating the general zero-count part at the two
concrete chords. -/
theorem c10_commonTonesExactSpelling_witness :
    countCommonTones ["Bb", "D", "F"] ["C#", "E", "G", "A#"] = 0 :=
  c10_commonTonesExactSpelling.1 _ _ (by decide)

/-! ### Claim C8: the resolution pass is a pure annotation pass. -/

/-- The immediate successor fails to be the expected resolution target:
for secondary chords the target is resolvesTo (a missing successor is not
the target either, matching the source checks); for the Neapolitan the
target is the fifth or first degree and the source only tests an existing
successor. -/
def unresolvedSuccessor (c : Chord) (next? : Option Chord) : Prop :=
  if c.type = "neapolitan" then
    ∃ n, next? = some n ∧ n.scaleDegree ≠ 5 ∧ n.scaleDegree ≠ 1
  else
    match next? with
    | none => True
    | some n => some n.root ≠ c.resolvesTo

/-- annotateChord either returns the chord unchanged or only rewrites its
expectsResolution field, and it does the latter only for the three
chromatic chord kinds with an unresolved successor. -/
theorem annoSD_cases (c : Chord) (nm hr : Bool) (l : Layers) :
    annoSD c nm hr l = c ∨
    (annoSD c nm hr l = { c with expectsResolution := c.resolvesTo } ∧
      c.type = "secondary-dominant" ∧ nm = true) := by
  unfold annoSD
  repeat' split
  all_goals try (left; rfl)
  right
  refine ⟨rfl, ?_, ?_⟩ <;> simp_all

theorem annoSDim_cases (c : Chord) (nm : Bool) :
    annoSDim c nm = c ∨
    (annoSDim c nm = { c with expectsResolution := c.resolvesTo } ∧
      c.type = "secondary-diminished" ∧ nm = true) := by
  unfold annoSDim
  repeat' split
  all_goals try (left; rfl)
  right
  refine ⟨rfl, ?_, ?_⟩ <;> simp_all

theorem annoNeap_cases (c : Chord) (n? : Option Chord) :
    annoNeap c n? = c ∨
    (annoNeap c n? = { c with expectsResolution := some "V or I" } ∧
      c.type = "neapolitan" ∧
      ∃ n, n? = some n ∧ n.scaleDegree ≠ 5 ∧ n.scaleDegree ≠ 1) := by
  unfold annoNeap
  by_cases ht : (c.type == "neapolitan") = true
  · rw [if_pos ht]
    cases n? with
    | none => exact Or.inl rfl
    | some n =>
        split
        · next m heq =>
            obtain rfl : n = m := by simpa using heq
            split
            · refine Or.inr ⟨rfl, beq_iff_eq.mp ht, n, rfl, ?_, ?_⟩ <;> simp_all
            · exact Or.inl rfl
        · next heq => exact absurd heq (by simp)
  · rw [if_neg ht]
    exact Or.inl rfl

/-- Only the expectsResolution field ever changes across the three
annotation blocks. -/
theorem annotateChord_cases (c : Chord) (n? : Option Chord) (hr : Bool) (l : Layers) :
    annotateChord c n? hr l = c ∨
    (∃ v, annotateChord c n? hr l = { c with expectsResolution := v } ∧
      (c.type = "secondary-dominant" ∨ c.type = "secondary-diminished" ∨
        c.type = "neapolitan") ∧
      unresolvedSuccessor c n?) := by
  simp only [annotateChord]
  have hmm : ∀ x : Chord, x.resolvesTo = c.resolvesTo → x.type = c.type →
      nextMismatchOf c n? = true → x.type ≠ "neapolitan" →
      unresolvedSuccessor x n? := by
    intro x hres htype hnm hne
    unfold unresolvedSuccessor
    rw [if_neg hne]
    cases n? with
    | none => trivial
    | some n =>
        unfold nextMismatchOf at hnm
        simp only [Bool.not_eq_true', beq_eq_false_iff_ne, ne_eq] at hnm
        simpa [hres] using hnm
  rcases annoSD_cases c (nextMismatchOf c n?) hr l with h1 | ⟨h1, ht1, hnm1⟩ <;>
    rw [h1]
  · rcases annoSDim_cases c (nextMismatchOf c n?) with h2 | ⟨h2, ht2, hnm2⟩ <;>
      rw [h2]
    · rcases annoNeap_cases c n? with h3 | ⟨h3, ht3, n, hn, hd5, hd1⟩ <;> rw [h3]
      · exact Or.inl rfl
      · refine Or.inr ⟨some "V or I", rfl, Or.inr (Or.inr ht3), ?_⟩
        unfold unresolvedSuccessor
        rw [if_pos ht3]
        exact ⟨n, hn, hd5, hd1⟩
    · rcases annoNeap_cases { c with expectsResolution := c.resolvesTo } n? with
        h3 | ⟨h3, ht3, n, hn, hd5, hd1⟩ <;> rw [h3]
      · exact Or.inr ⟨c.resolvesTo, rfl, Or.inr (Or.inl ht2),
          hmm c rfl rfl hnm2 (by rw [ht2]; decide)⟩
      · exact absurd ht3 (by rw [show ({ c with expectsResolution := c.resolvesTo} : Chord).type = c.type from rfl, ht2]; decide)
  · rcases annoSDim_cases { c with expectsResolution := c.resolvesTo }
        (nextMismatchOf c n?) with h2 | ⟨h2, ht2, hnm2⟩ <;> rw [h2]
    · rcases annoNeap_cases { c with expectsResolution := c.resolvesTo } n? with
        h3 | ⟨h3, ht3, n, hn, hd5, hd1⟩ <;> rw [h3]
      · exact Or.inr ⟨c.resolvesTo, rfl, Or.inl ht1,
          hmm c rfl rfl hnm1 (by rw [ht1]; decide)⟩
      · exact absurd ht3 (by rw [show ({ c with expectsResolution := c.resolvesTo} : Chord).type = c.type from rfl, ht1]; decide)
    · exact absurd ht2 (by rw [show ({ c with expectsResolution := c.resolvesTo} : Chord).type = c.type from rfl, ht1]; decide)

/-- C8: ensureChromaticResolution returns a progression of the same
length with the same chords in the same order; every field except the
expectsResolution annotation is unchanged, and the annotation changes only
on secondary-dominant, secondary-diminished or Neapolitan chords whose
immediate successor is not their expected resolution target. -/
theorem c8_resolutionPassFrame (progression : List Chord) (layers : Layers) :
    (ensureChromaticResolution progression layers).length = progression.length ∧
    ∀ i, i < progression.length →
      ∃ c c', progression.get? i = some c ∧
        (ensureChromaticResolution progression layers).get? i = some c' ∧
        c'.root = c.root ∧ c'.notes = c.notes ∧ c'.quality = c.quality ∧
        c'.symbol = c.symbol ∧ c'.degree = c.degree ∧
        c'.scaleDegree = c.scaleDegree ∧ c'.type = c.type ∧
        c'.resolvesTo = c.resolvesTo ∧ c'.layer = c.layer ∧
        c'.chordExtension = c.chordExtension ∧ c'.chordFunction = c.chordFunction ∧
        (c'.expectsResolution = c.expectsResolution ∨
          ((c.type = "secondary-dominant" ∨ c.type = "secondary-diminished" ∨
            c.type = "neapolitan") ∧
           unresolvedSuccessor c (progression.get? (i + 1)))) := by
  constructor
  · simp [ensureChromaticResolution]
  · intro i hi
    have hc : progression.get? i = some (progression.getD i spreadUndefChord) := by
      rw [List.getD_eq_get?]
      cases hg : progression.get? i with
      | none => exact absurd (List.get?_eq_none.mp hg) (by omega)
      | some a => rfl
    have he : (ensureChromaticResolution progression layers).get? i =
        some (annotateChord (progression.getD i spreadUndefChord)
          (progression.get? (i + 1)) (decide (i + 1 < progression.length)) layers) := by
      simp only [ensureChromaticResolution, List.get?_map]
      rw [List.get?_range hi]
      rfl
    rcases annotateChord_cases (progression.getD i spreadUndefChord)
        (progression.get? (i + 1)) (decide (i + 1 < progression.length)) layers with
      h | ⟨v, h, hty, hun⟩
    · rw [h] at he
      exact ⟨_, _, hc, he, rfl, rfl, rfl, rfl, rfl, rfl, rfl, rfl, rfl, rfl, rfl,
        Or.inl rfl⟩
    · rw [h] at he
      exact ⟨_, _, hc, he, rfl, rfl, rfl, rfl, rfl, rfl, rfl, rfl, rfl, rfl, rfl,
        Or.inr ⟨hty, hun⟩⟩

/-- Witness for C8 on a concrete two-chord progression: an unresolved
secondary dominant followed by the wrong chord. -/
theorem c8_resolutionPassFrame_witness :
    ∃ c c', [(getSecondaryDominants (some cMajorScale)).getD 0 spreadUndefChord,
             (harmonizeTriads (some cMajorScale)).getD 4 spreadUndefChord].get? 0 = some c ∧
      (ensureChromaticResolution
        [(getSecondaryDominants (some cMajorScale)).getD 0 spreadUndefChord,
         (harmonizeTriads (some cMajorScale)).getD 4 spreadUndefChord]
        (getProgressionLayers (some cMajorScale))).get? 0 = some c' ∧
      c'.root = c.root ∧ c'.notes = c.notes ∧ c'.quality = c.quality ∧
      c'.symbol = c.symbol ∧ c'.degree = c.degree ∧
      c'.scaleDegree = c.scaleDegree ∧ c'.type = c.type ∧
      c'.resolvesTo = c.resolvesTo ∧ c'.layer = c.layer ∧
      c'.chordExtension = c.chordExtension ∧ c'.chordFunction = c.chordFunction ∧
      (c'.expectsResolution = c.expectsResolution ∨
        ((c.type = "secondary-dominant" ∨ c.type = "secondary-diminished" ∨
          c.type = "neapolitan") ∧
         unresolvedSuccessor c
           ([(getSecondaryDominants (some cMajorScale)).getD 0 spreadUndefChord,
             (harmonizeTriads (some cMajorScale)).getD 4 spreadUndefChord].get? 1))) :=
  (c8_resolutionPassFrame _ _).2 0 (by decide)

/-! ### Claim C2: forced resolution in the algorithmic strategy. -/

/-- The chord kinds the forced-resolution override applies to. -/
def secondaryishB (c : Chord) : Bool :=
  c.type == "secondary-dominant" || c.type == "secondary-diminished"

/-- One adjacent pair is acceptable: the earlier chord is not a secondary
chord, or the later chord's root is its resolution target. -/
def pairOkB (z y : Chord) : Bool :=
  !(secondaryishB z) || (some y.root == z.resolvesTo)

/-- Every adjacent pair of the progression is acceptable. -/
def pairwiseResolvedB : List Chord → Bool
  | a :: b :: rest => pairOkB a b && pairwiseResolvedB (b :: rest)
  | _ => true

/-- The fields pairwiseResolvedB reads. -/
def pairProj (c : Chord) : String × Option String × Bool :=
  (c.root, c.resolvesTo, secondaryishB c)

theorem pairwiseResolvedB_append (xs : List Chord) (y : Chord) :
    pairwiseResolvedB (xs ++ [y]) =
      (pairwiseResolvedB xs &&
        (match xs.getLast? with | none => true | some z => pairOkB z y)) := by
  induction xs with
  | nil => rfl
  | cons a t ih =>
      cases t with
      | nil => simp [pairwiseResolvedB, pairOkB]
      | cons b t' =>
          have hstep : pairwiseResolvedB ((a :: b :: t') ++ [y]) =
              (pairOkB a b && pairwiseResolvedB ((b :: t') ++ [y])) := rfl
          rw [hstep, ih, List.getLast?_cons_cons]
          show (pairOkB a b && _) = ((pairOkB a b && _) && _)
          rw [Bool.and_assoc]

theorem pairwiseResolvedB_take (l : List Chord) (n : Nat)
    (h : pairwiseResolvedB l = true) : pairwiseResolvedB (l.take n) = true := by
  induction l generalizing n with
  | nil => simp [List.take_nil]; rfl
  | cons a t ih =>
      cases n with
      | zero => rfl
      | succ m =>
          cases t with
          | nil =>
              cases m <;> rfl
          | cons b t' =>
              cases m with
              | zero => rfl
              | succ k =>
                  have h1 : pairOkB a b = true := by
                    have : (pairOkB a b && pairwiseResolvedB (b :: t')) = true := h
                    exact (Bool.and_eq_true _ _).mp this |>.1
                  have h2 : pairwiseResolvedB (b :: t') = true := by
                    have : (pairOkB a b && pairwiseResolvedB (b :: t')) = true := h
                    exact (Bool.and_eq_true _ _).mp this |>.2
                  have h3 := ih (n := k + 1) h2
                  show pairwiseResolvedB (a :: b :: t'.take k) = true
                  have hb : (b :: t').take (k + 1) = b :: t'.take k := rfl
                  rw [hb] at h3
                  show (pairOkB a b && pairwiseResolvedB (b :: t'.take k)) = true
                  rw [h1, h3]
                  rfl

theorem pairwiseResolvedB_congr : ∀ (l1 l2 : List Chord),
    l1.length = l2.length →
    (∀ i, ((l1.get? i).map pairProj) = ((l2.get? i).map pairProj)) →
    pairwiseResolvedB l1 = pairwiseResolvedB l2 := by
  intro l1
  induction l1 with
  | nil =>
      intro l2 hlen _
      cases l2 with
      | nil => rfl
      | cons a t => exact absurd hlen (by simp)
  | cons a1 t1 ih =>
      intro l2 hlen hproj
      cases l2 with
      | nil => exact absurd hlen (by simp)
      | cons a2 t2 =>
          have hp0 : pairProj a1 = pairProj a2 := by
            have := hproj 0
            simpa using this
          cases t1 with
          | nil =>
              cases t2 with
              | nil => rfl
              | cons b2 u2 => exact absurd hlen (by simp)
          | cons b1 u1 =>
              cases t2 with
              | nil => exact absurd hlen (by simp)
              | cons b2 u2 =>
                  have hp1 : pairProj b1 = pairProj b2 := by
                    have := hproj 1
                    simpa using this
                  have htail : pairwiseResolvedB (b1 :: u1) = pairwiseResolvedB (b2 :: u2) := by
                    refine ih (b2 :: u2) (by simpa using hlen) ?_
                    intro i
                    have := hproj (i + 1)
                    simpa using this
                  have hpair : pairOkB a1 b1 = pairOkB a2 b2 := by
                    simp only [pairProj, Prod.mk.injEq] at hp0 hp1
                    obtain ⟨hr0, hres0, hsec0⟩ := hp0
                    obtain ⟨hr1, -, -⟩ := hp1
                    unfold pairOkB
                    rw [hsec0, hres0, hr1]
                  show (pairOkB a1 b1 && pairwiseResolvedB (b1 :: u1)) =
                    (pairOkB a2 b2 && pairwiseResolvedB (b2 :: u2))
                  rw [hpair, htail]

/-- The chord can be resolved inside the main layer: whenever it is a
secondary chord, a main chord with the target root exists. -/
def secOkFor (mains : List Chord) (c : Chord) : Prop :=
  secondaryishB c = true →
    (mains.find? (fun m => some m.root == c.resolvesTo)).isSome = true

/-- Membership in any of the five harmony layers. -/
def inAnyLayer (layers : Layers) (c : Chord) : Prop :=
  c ∈ layers.mainChords ∨ c ∈ layers.secondaryDominants ∨
  c ∈ layers.modalInterchange ∨ c ∈ layers.neapolitan ∨
  c ∈ layers.secondaryDiminished

/-- A defaulted array read is a member or the default. -/
theorem getD_mem_or (l : List Chord) (n : Nat) (d : Chord) :
    l.getD n d ∈ l ∨ l.getD n d = d := by
  rw [List.getD_eq_get?]
  cases hg : l.get? n with
  | none => exact Or.inr rfl
  | some a => exact Or.inl (List.get?_mem hg)

/-- The layer tag does not change the fields secOkFor reads. -/
theorem secOkFor_chordWithLayer (mains : List Chord) (b : Chord) (lk : String)
    (h : secOkFor mains b) : secOkFor mains (chordWithLayer b lk) := h

theorem harmonizeTriads_type {c : Chord} {scale? : Option Scale}
    (h : c ∈ harmonizeTriads scale?) : c.type = "triad" := by
  rcases scale? with _ | sc
  · exact absurd h (by simp [harmonizeTriads])
  · simp only [harmonizeTriads] at h
    by_cases hg : sc.notes.length < 3
    · rw [if_pos hg] at h
      exact absurd h (by simp)
    · rw [if_neg hg] at h
      obtain ⟨i, -, rfl⟩ := List.mem_map.mp h
      rfl

theorem modalInterchange_type {c : Chord} {scale? : Option Scale}
    (h : c ∈ getModalInterchangeChords scale?) : c.type = "modal-interchange" := by
  rcases scale? with _ | sc
  · exact absurd h (by simp [getModalInterchangeChords])
  · simp only [getModalInterchangeChords] at h
    by_cases hg : sc.root = ""
    · rw [if_pos hg] at h
      exact absurd h (by simp)
    · rw [if_neg hg] at h
      simp only [List.mem_cons, List.not_mem_nil, or_false] at h
      rcases h with rfl | rfl | rfl | rfl | rfl <;> rfl

theorem neapolitan_type {c : Chord} {scale? : Option Scale}
    (h : c ∈ getNeapolitanChords scale?) : c.type = "neapolitan" := by
  rcases scale? with _ | sc
  · exact absurd h (by simp [getNeapolitanChords])
  · simp only [getNeapolitanChords] at h
    by_cases hg : sc.root = ""
    · rw [if_pos hg] at h
      exact absurd h (by simp)
    · rw [if_neg hg] at h
      simp only [List.mem_cons, List.not_mem_nil, or_false] at h
      rcases h with rfl
      rfl

theorem mem_secondaryDominants {c : Chord} {scale? : Option Scale}
    (h : c ∈ getSecondaryDominants scale?) :
    ∃ sc idx, scale? = some sc ∧ 7 ≤ sc.notes.length ∧ 1 ≤ idx ∧
      idx < sc.notes.length ∧ c = secDomAt sc idx := by
  rcases scale? with _ | sc
  · exact absurd h (by simp [getSecondaryDominants])
  · simp only [getSecondaryDominants] at h
    by_cases hg : sc.notes.length < 7
    · rw [if_pos hg] at h
      exact absurd h (by simp)
    · rw [if_neg hg] at h
      obtain ⟨i, hi, rfl⟩ := List.mem_map.mp h
      rw [List.mem_range'] at hi
      exact ⟨sc, i, rfl, by omega, by omega, by omega, rfl⟩

theorem mem_secondaryDiminished {c : Chord} {scale? : Option Scale}
    (h : c ∈ getSecondaryDiminished scale?) :
    ∃ sc idx, scale? = some sc ∧ 7 ≤ sc.notes.length ∧ 1 ≤ idx ∧
      idx < sc.notes.length ∧ c = secDimAt sc idx := by
  rcases scale? with _ | sc
  · exact absurd h (by simp [getSecondaryDiminished])
  · simp only [getSecondaryDiminished] at h
    by_cases hg : sc.notes.length < 7
    · rw [if_pos hg] at h
      exact absurd h (by simp)
    · rw [if_neg hg] at h
      obtain ⟨i, hi, rfl⟩ := List.mem_map.mp h
      rw [List.mem_range'] at hi
      exact ⟨sc, i, rfl, by omega, by omega, by omega, rfl⟩

/-- In the bundle getProgressionLayers builds, every chord of every layer
can resolve inside the main layer: secondary chords only exist for scales
of at least seven notes, and then the main layer holds a triad on every
scale note, in particular on each resolution target. -/
theorem layersSecOk (scale? : Option Scale) (c : Chord)
    (h : inAnyLayer (getProgressionLayers scale?) c) :
    secOkFor (getProgressionLayers scale?).mainChords c := by
  intro hsec
  have hresolve : ∃ sc idx, scale? = some sc ∧ 7 ≤ sc.notes.length ∧
      idx < sc.notes.length ∧ c.resolvesTo = some (sc.notes.getD idx "") := by
    rcases h with hm | hm | hm | hm | hm
    · have := harmonizeTriads_type hm
      exact absurd hsec (by simp [secondaryishB, this])
    · obtain ⟨sc, idx, hsc, h7, h1, hlt, rfl⟩ := mem_secondaryDominants hm
      exact ⟨sc, idx, hsc, h7, hlt, rfl⟩
    · have := modalInterchange_type hm
      exact absurd hsec (by simp [secondaryishB, this])
    · have := neapolitan_type hm
      exact absurd hsec (by simp [secondaryishB, this])
    · obtain ⟨sc, idx, hsc, h7, h1, hlt, rfl⟩ := mem_secondaryDiminished hm
      exact ⟨sc, idx, hsc, h7, hlt, rfl⟩
  obtain ⟨sc, idx, rfl, h7, hlt, hres⟩ := hresolve
  rw [List.find?_isSome]
  refine ⟨triadAt sc idx, ?_, ?_⟩
  · show triadAt sc idx ∈ harmonizeTriads (some sc)
    simp only [harmonizeTriads]
    rw [if_neg (by omega : ¬ sc.notes.length < 3)]
    exact List.mem_map.mpr ⟨idx, List.mem_range.mpr hlt, rfl⟩
  · rw [hres]
    exact beq_self_eq_true _

theorem mem_insertScoreDesc {x y : Chord × Int} {l : List (Chord × Int)}
    (h : y ∈ insertScoreDesc x l) : y = x ∨ y ∈ l := by
  induction l with
  | nil => simpa [insertScoreDesc] using h
  | cons a t ih =>
      unfold insertScoreDesc at h
      split at h
      · rcases List.mem_cons.mp h with rfl | h2
        · exact Or.inr (List.mem_cons_self _ _)
        · rcases ih h2 with h3 | h3
          · exact Or.inl h3
          · exact Or.inr (List.mem_cons_of_mem _ h3)
      · rcases List.mem_cons.mp h with rfl | h2
        · exact Or.inl rfl
        · exact Or.inr h2

theorem mem_sortByScoreDesc {y : Chord × Int} {l : List (Chord × Int)}
    (h : y ∈ sortByScoreDesc l) : y ∈ l := by
  induction l with
  | nil => simpa [sortByScoreDesc] using h
  | cons a t ih =>
      unfold sortByScoreDesc at h
      rcases mem_insertScoreDesc h with rfl | h2
      · exact List.mem_cons_self _ _
      · exact List.mem_cons_of_mem _ (ih h2)

theorem length_insertScoreDesc (x : Chord × Int) (l : List (Chord × Int)) :
    (insertScoreDesc x l).length = l.length + 1 := by
  induction l with
  | nil => rfl
  | cons a t ih =>
      unfold insertScoreDesc
      split
      · simp [ih]
      · simp

theorem length_sortByScoreDesc (l : List (Chord × Int)) :
    (sortByScoreDesc l).length = l.length := by
  induction l with
  | nil => rfl
  | cons a t ih =>
      unfold sortByScoreDesc
      rw [length_insertScoreDesc, ih]
      rfl

theorem filterValidChords_subset {avail : List Chord} {cur : Chord}
    {lk : String} {rule? : Option HarmonyRule} {rs : RSeq} {p : Nat} {c : Chord}
    (h : c ∈ (filterValidChords avail cur lk rule? rs p).1) : c ∈ avail := by
  induction avail generalizing p with
  | nil => simpa [filterValidChords] using h
  | cons a t ih =>
      unfold filterValidChords at h
      split at h
      · exact List.mem_cons_of_mem _ (ih h)
      · split at h
        · split at h
          · split at h
            · rcases List.mem_cons.mp h with rfl | h2
              · exact List.mem_cons_self _ _
              · exact List.mem_cons_of_mem _ (ih h2)
            · split at h
              · rcases List.mem_cons.mp h with rfl | h2
                · exact List.mem_cons_self _ _
                · exact List.mem_cons_of_mem _ (ih h2)
              · exact List.mem_cons_of_mem _ (ih h)
          · rcases List.mem_cons.mp h with rfl | h2
            · exact List.mem_cons_self _ _
            · exact List.mem_cons_of_mem _ (ih h2)
        · rcases List.mem_cons.mp h with rfl | h2
          · exact List.mem_cons_self _ _
          · exact List.mem_cons_of_mem _ (ih h2)

theorem length_sortByScoreDesc_fix : True := trivial

/-- Every chord selectCadentialChord returns is a layer-tagged main chord,
Neapolitan chord, or the undefined-spread object. -/
theorem selectCadential_shape (last : Chord) (layers : Layers)
    (cfg : StyleConfig) (ct : String) (rs : RSeq) (p : Nat) :
    ∃ b lk, (selectCadentialChord last layers cfg ct rs p).1 = chordWithLayer b lk ∧
      (b ∈ layers.mainChords ∨ b ∈ layers.neapolitan ∨ b = spreadUndefChord) := by
  unfold selectCadentialChord
  repeat' split
  all_goals
    refine ⟨_, _, rfl, ?_⟩
  all_goals
    first
    | (rcases getD_mem_or layers.mainChords 0 spreadUndefChord with hm | hm
       · exact Or.inl hm
       · exact Or.inr (Or.inr hm))
    | (rcases getD_mem_or layers.mainChords 1 spreadUndefChord with hm | hm
       · exact Or.inl hm
       · exact Or.inr (Or.inr hm))
    | (rcases getD_mem_or layers.mainChords 3 spreadUndefChord with hm | hm
       · exact Or.inl hm
       · exact Or.inr (Or.inr hm))
    | (rcases getD_mem_or layers.mainChords 4 spreadUndefChord with hm | hm
       · exact Or.inl hm
       · exact Or.inr (Or.inr hm))
    | (rcases getD_mem_or layers.mainChords 5 spreadUndefChord with hm | hm
       · exact Or.inl hm
       · exact Or.inr (Or.inr hm))
    | (rcases getD_mem_or layers.neapolitan 0 spreadUndefChord with hm | hm
       · exact Or.inr (Or.inl hm)
       · exact Or.inr (Or.inr hm))

theorem availableFor_cases (layers : Layers) (layer : String) :
    availableFor layers layer = layers.mainChords ∨
    availableFor layers layer = layers.secondaryDominants ∨
    availableFor layers layer = layers.modalInterchange ∨
    availableFor layers layer = layers.neapolitan ∨
    availableFor layers layer = layers.secondaryDiminished := by
  unfold availableFor
  repeat' split
  · exact Or.inr (Or.inl rfl)
  · exact Or.inr (Or.inr (Or.inl rfl))
  · exact Or.inr (Or.inr (Or.inr (Or.inl rfl)))
  · exact Or.inr (Or.inr (Or.inr (Or.inr rfl)))
  · exact Or.inl rfl

/-- Math.floor of a probability times a positive count is a valid index. -/
theorem qFloor_mul_bounds (r : Q) (n : Nat) (hr : r.isProb) (hn : 1 ≤ n) :
    0 ≤ Q.floor (Q.mul r (Q.ofNat n)) ∧
    (Q.floor (Q.mul r (Q.ofNat n))).toNat < n := by
  obtain ⟨hden, hnum0, hnumlt⟩ := hr
  have hfre : Q.floor (Q.mul r (Q.ofNat n)) = Int.fdiv (r.num * n) (r.den * 1) := rfl
  have hnn : (0 : Int) ≤ r.num * n := by positivity
  have hdd : (0 : Int) < r.den * 1 := by omega
  have hfe : Int.fdiv (r.num * n) (r.den * 1) = (r.num * n) / (r.den * 1) := by
    rw [Int.fdiv_eq_ediv] <;> omega
  have hnonneg : 0 ≤ (r.num * n) / (r.den * 1) := Int.ediv_nonneg hnn (by omega)
  have hlt : (r.num * n) / (r.den * 1) < n := by
    apply Int.ediv_lt_of_lt_mul hdd
    have hnz : (0 : Int) ≤ (n : Int) := by positivity
    calc r.num * n < r.den * n := by
          rcases Nat.lt_or_ge 0 n with hpos | hzero
          · exact Int.mul_lt_mul_of_pos_right hnumlt (by exact_mod_cast hpos)
          · omega
      _ = n * (r.den * 1) := by ring
  rw [hfre, hfe]
  omega

/-- Every chord selectNextChordFunctional returns is a layer-tagged chord
from one of the five harmony layers. -/
theorem selectNext_shape {cur : Chord} {layers : Layers} {w : List (String × Q)}
    {rules : List (String × HarmonyRule)} {style : String} {rs : RSeq} {p : Nat}
    {ch : Chord} {p' : Nat}
    (h : selectNextChordFunctional cur layers w rules style rs p = some (ch, p')) :
    ∃ b lk, ch = chordWithLayer b lk ∧ inAnyLayer layers b := by
  simp only [selectNextChordFunctional] at h
  split at h
  · -- rule filtering left nothing: the fallback list was used
    split at h
    · exact absurd h (by simp)
    · split at h
      case h_2 => exact absurd h (by simp)
      case h_1 sel heq =>
        simp only [Option.some.injEq, Prod.mk.injEq] at h
        obtain ⟨hch, -⟩ := h
        refine ⟨sel.1, _, hch.symm, ?_⟩
        have hmem := mem_sortByScoreDesc (List.get?_mem heq)
        obtain ⟨b, hb, hpair⟩ := List.mem_map.mp hmem
        have hb1 : sel.1 = b := by rw [← hpair]
        rw [hb1]
        exact Or.inl (List.mem_filter.mp hb).1
  · -- the filtered list itself was used
    split at h
    · exact absurd h (by simp)
    · split at h
      case h_2 => exact absurd h (by simp)
      case h_1 sel heq =>
        simp only [Option.some.injEq, Prod.mk.injEq] at h
        obtain ⟨hch, -⟩ := h
        refine ⟨sel.1, _, hch.symm, ?_⟩
        have hmem := mem_sortByScoreDesc (List.get?_mem heq)
        obtain ⟨b, hb, hpair⟩ := List.mem_map.mp hmem
        have hb1 : sel.1 = b := by rw [← hpair]
        rw [hb1]
        have hav := filterValidChords_subset hb
        rcases availableFor_cases layers (pickLayerGo w (rs p) ⟨0, 1⟩) with
          h5 | h5 | h5 | h5 | h5 <;> rw [h5] at hav
        · exact Or.inl hav
        · exact Or.inr (Or.inl hav)
        · exact Or.inr (Or.inr (Or.inl hav))
        · exact Or.inr (Or.inr (Or.inr (Or.inl hav)))
        · exact Or.inr (Or.inr (Or.inr (Or.inr hav)))

/-- With at least two main chords of distinct root or quality and a
well-ranged stream, selectNextChordFunctional always succeeds. -/
theorem selectNext_total (cur : Chord) (layers : Layers) (w : List (String × Q))
    (rules : List (String × HarmonyRule)) (style : String) (rs : RSeq) (p : Nat)
    (hMV : ∃ c1 ∈ layers.mainChords, ∃ c2 ∈ layers.mainChords,
      ¬(c1.root = c2.root ∧ c1.quality = c2.quality))
    (hrs : RSeq.inRange rs) :
    ∃ ch p', selectNextChordFunctional cur layers w rules style rs p = some (ch, p') := by
  have hfb : fallbackChords layers cur ≠ [] := by
    obtain ⟨c1, hc1, c2, hc2, hne⟩ := hMV
    by_cases hp1 : (!(c1.root == cur.root) || !(c1.quality == cur.quality)) = true
    · exact List.ne_nil_of_mem (List.mem_filter.mpr ⟨hc1, hp1⟩)
    · have he1 : c1.root = cur.root ∧ c1.quality = cur.quality := by
        simp only [Bool.or_eq_true, Bool.not_eq_true', beq_eq_false_iff_ne, ne_eq,
          not_or, not_not] at hp1
        exact hp1
      by_cases hp2 : (!(c2.root == cur.root) || !(c2.quality == cur.quality)) = true
      · exact List.ne_nil_of_mem (List.mem_filter.mpr ⟨hc2, hp2⟩)
      · have he2 : c2.root = cur.root ∧ c2.quality = cur.quality := by
          simp only [Bool.or_eq_true, Bool.not_eq_true', beq_eq_false_iff_ne, ne_eq,
            not_or, not_not] at hp2
          exact hp2
        exact absurd ⟨he1.1.trans he2.1.symm, he1.2.trans he2.2.symm⟩ hne
  simp only [selectNextChordFunctional]
  set layer := pickLayerGo w (rs p) ⟨0, 1⟩ with hlayer
  set vc0 := (filterValidChords (availableFor layers layer) cur (layerKeyFor layer)
    (ruleFor rules (currentDegreeOf cur)) rs (p + 1)).1 with hvc0
  set p2 := (filterValidChords (availableFor layers layer) cur (layerKeyFor layer)
    (ruleFor rules (currentDegreeOf cur)) rs (p + 1)).2 with hp2
  have hvne : (if vc0.isEmpty then fallbackChords layers cur else vc0) ≠ [] := by
    split
    · exact hfb
    · next hemp =>
        cases hv : vc0 with
        | nil => rw [hv] at hemp; exact absurd rfl hemp
        | cons a t => simp
  set vcs := if vc0.isEmpty then fallbackChords layers cur else vc0 with hvcs
  have hslen : 1 ≤ (sortByScoreDesc (vcs.map (fun chord =>
      (chord, scoreChordTransition cur chord style)))).length := by
    rw [length_sortByScoreDesc, List.length_map]
    cases hv : vcs with
    | nil => exact absurd hv hvne
    | cons a t => simp
  have htopn : 1 ≤ min 3 (sortByScoreDesc (vcs.map (fun chord =>
      (chord, scoreChordTransition cur chord style)))).length := by omega
  obtain ⟨hge, hlt⟩ := qFloor_mul_bounds (rs p2) _ (hrs p2) htopn
  rw [if_neg (by omega)]
  have hlt2 : (Q.floor (Q.mul (rs p2) (Q.ofNat (min 3 (sortByScoreDesc (vcs.map (fun chord =>
      (chord, scoreChordTransition cur chord style)))).length)))).toNat <
      (sortByScoreDesc (vcs.map (fun chord =>
        (chord, scoreChordTransition cur chord style)))).length := by omega
  obtain ⟨sel, hsel⟩ : ∃ sel, (sortByScoreDesc (vcs.map (fun chord =>
      (chord, scoreChordTransition cur chord style)))).get?
      (Q.floor (Q.mul (rs p2) (Q.ofNat (min 3 (sortByScoreDesc (vcs.map (fun chord =>
        (chord, scoreChordTransition cur chord style)))).length)))).toNat = some sel := by
    cases hg : (sortByScoreDesc (vcs.map (fun chord =>
        (chord, scoreChordTransition cur chord style)))).get?
        (Q.floor (Q.mul (rs p2) (Q.ofNat (min 3 (sortByScoreDesc (vcs.map (fun chord =>
          (chord, scoreChordTransition cur chord style)))).length)))).toNat with
    | none => exact absurd (List.get?_eq_none.mp hg) (by omega)
    | some a => exact ⟨a, rfl⟩
  rw [hsel]
  exact ⟨_, _, rfl⟩

/-- A chord drawn from a layer, or the undefined-spread object, with any
layer tag, can itself resolve inside the main layer. -/
theorem secOk_of_choice {layers : Layers}
    (hL : ∀ c, inAnyLayer layers c → secOkFor layers.mainChords c)
    {chosen : Chord}
    (hshape : ∃ b lk, chosen = chordWithLayer b lk ∧
      (inAnyLayer layers b ∨ b = spreadUndefChord)) :
    secOkFor layers.mainChords chosen := by
  obtain ⟨b, lk, rfl, hb | rfl⟩ := hshape
  · exact secOkFor_chordWithLayer _ _ _ (hL b hb)
  · intro hsec
    have hrw : secondaryishB (chordWithLayer spreadUndefChord lk) =
        secondaryishB spreadUndefChord := rfl
    rw [hrw] at hsec
    exact absurd hsec (by decide)

/-- The override keeps the resolvability invariant: the substituted chord
is itself a main chord, hence covered by the layer hypothesis. -/
theorem overrideResolution_secOk {layers : Layers} {last chosen : Chord}
    (hL : ∀ c, inAnyLayer layers c → secOkFor layers.mainChords c)
    (hch : secOkFor layers.mainChords chosen) :
    secOkFor layers.mainChords (overrideResolution layers last chosen) := by
  unfold overrideResolution
  split
  · cases hres : layers.mainChords.find? (fun c => some c.root == last.resolvesTo) with
    | some res =>
        have hmem : res ∈ layers.mainChords := List.mem_of_find?_eq_some hres
        exact secOkFor_chordWithLayer _ _ _ (hL res (Or.inl hmem))
    | none => exact hch
  · exact hch

/-- After the override, the pair formed by the previous chord and the next
one is acceptable: a secondary previous chord that can resolve is always
followed by its target root. -/
theorem overrideResolution_pairOk {layers : Layers} {last chosen : Chord}
    (hlast : secOkFor layers.mainChords last) :
    pairOkB last (overrideResolution layers last chosen) = true := by
  unfold overrideResolution pairOkB
  by_cases hsec : secondaryishB last = true
  · have hfind := hlast hsec
    obtain ⟨res, hres⟩ := Option.isSome_iff_exists.mp hfind
    have hcond : (last.type == "secondary-dominant" ||
        last.type == "secondary-diminished") = true := hsec
    rw [if_pos hcond, hres]
    have hpred := List.find?_some hres
    show (!secondaryishB last || (some (chordWithLayer res "main").root == last.resolvesTo)) = true
    have : (some (chordWithLayer res "main").root == last.resolvesTo) = true := hpred
    rw [this]
    exact Bool.or_true _
  · have hsec' : secondaryishB last = false := by
      cases hs : secondaryishB last
      · rfl
      · exact absurd hs hsec
    rw [hsec']
    rfl

/-- Invariant of the phrase loop: every chord placed can resolve inside
the main layer, every adjacent pair is acceptable, the accumulator grows
by exactly the fuel, and its last element (the seeded tonic) is
untouched. -/
theorem algBuild_invariant (len : Nat) (style : String) (layers : Layers)
    (cfg : StyleConfig) (rules : List (String × HarmonyRule))
    (weights : List (String × Q)) (rs : RSeq)
    (hL : ∀ c, inAnyLayer layers c → secOkFor layers.mainChords c) :
    ∀ (fuel i : Nat) (acc : List Chord) (p : Nat) (acc' : List Chord) (p' : Nat),
      algBuild len style layers cfg rules weights rs i fuel acc p = some (acc', p') →
      (∀ c ∈ acc, secOkFor layers.mainChords c) →
      pairwiseResolvedB acc.reverse = true →
      ((∀ c ∈ acc', secOkFor layers.mainChords c) ∧
        pairwiseResolvedB acc'.reverse = true ∧
        acc'.length = acc.length + fuel ∧ acc'.getLast? = acc.getLast?) := by
  intro fuel
  induction fuel with
  | zero =>
      intro i acc p acc' p' h hsec hpair
      simp only [algBuild, Option.some.injEq, Prod.mk.injEq] at h
      obtain ⟨rfl, rfl⟩ := h
      exact ⟨hsec, hpair, by omega, rfl⟩
  | succ f ih =>
      intro i acc p acc' p' h hsec hpair
      cases acc with
      | nil => simp [algBuild] at h
      | cons last rest =>
          have hlastOk : secOkFor layers.mainChords last := hsec last (List.mem_cons_self _ _)
          have hcontinue : ∀ (chosen : Chord) (p1 : Nat),
              algBuild len style layers cfg rules weights rs (i + 1) f
                (overrideResolution layers last chosen :: last :: rest) p1 = some (acc', p') →
              secOkFor layers.mainChords chosen →
              ((∀ c ∈ acc', secOkFor layers.mainChords c) ∧
                pairwiseResolvedB acc'.reverse = true ∧
                acc'.length = (last :: rest).length + (f + 1) ∧
                acc'.getLast? = (last :: rest).getLast?) := by
            intro chosen p1 hrec hchOk
            have hsec' : ∀ c ∈ overrideResolution layers last chosen :: last :: rest,
                secOkFor layers.mainChords c := by
              intro c hc
              rcases List.mem_cons.mp hc with rfl | hc2
              · exact overrideResolution_secOk hL hchOk
              · exact hsec c hc2
            have hpair' : pairwiseResolvedB
                (overrideResolution layers last chosen :: last :: rest).reverse = true := by
              rw [List.reverse_cons, pairwiseResolvedB_append]
              have hgl : (last :: rest).reverse.getLast? = some last := by
                rw [List.getLast?_reverse]
                rfl
              rw [hgl, hpair]
              show (true && pairOkB last (overrideResolution layers last chosen)) = true
              rw [@overrideResolution_pairOk layers last chosen hlastOk]
              rfl
            have hout := ih (i + 1) _ p1 acc' p' hrec hsec' hpair'
            obtain ⟨o1, o2, o3, o4⟩ := hout
            refine ⟨o1, o2, by simp at o3 ⊢; omega, ?_⟩
            rw [o4]
            rfl
          simp only [algBuild] at h
          split at h
          case h_1 => exact absurd h (by simp)
          case h_2 chosen p1 heq =>
            refine hcontinue chosen p1 h (secOk_of_choice hL ?_)
            split at heq
            · -- final cadence position
              simp only [Option.some.injEq] at heq
              obtain ⟨b, lk, hsh, hb⟩ := selectCadential_shape last layers cfg "final" rs p
              refine ⟨b, lk, ?_, ?_⟩
              · rw [show chosen = (selectCadentialChord last layers cfg "final" rs p).1 from by
                  rw [heq], hsh]
              · rcases hb with hb | hb | hb
                · exact Or.inl (Or.inl hb)
                · exact Or.inl (Or.inr (Or.inr (Or.inr (Or.inl hb))))
                · exact Or.inr hb
            · split at heq
              · -- penultimate cadence position
                simp only [Option.some.injEq] at heq
                obtain ⟨b, lk, hsh, hb⟩ := selectCadential_shape last layers cfg "penultimate" rs p
                refine ⟨b, lk, ?_, ?_⟩
                · rw [show chosen = (selectCadentialChord last layers cfg "penultimate" rs p).1 from by
                    rw [heq], hsh]
                · rcases hb with hb | hb | hb
                  · exact Or.inl (Or.inl hb)
                  · exact Or.inl (Or.inr (Or.inr (Or.inr (Or.inl hb))))
                  · exact Or.inr hb
              · split at heq
                · -- half cadence position
                  simp only [Option.some.injEq] at heq
                  obtain ⟨b, lk, hsh, hb⟩ := selectCadential_shape last layers cfg "half" rs p
                  refine ⟨b, lk, ?_, ?_⟩
                  · rw [show chosen = (selectCadentialChord last layers cfg "half" rs p).1 from by
                      rw [heq], hsh]
                  · rcases hb with hb | hb | hb
                    · exact Or.inl (Or.inl hb)
                    · exact Or.inl (Or.inr (Or.inr (Or.inr (Or.inl hb))))
                    · exact Or.inr hb
                · -- regular weighted selection
                  obtain ⟨b, lk, hsh, hb⟩ := selectNext_shape heq
                  exact ⟨b, lk, hsh, Or.inl hb⟩

/-- The annotation pass does not change the fields the resolution
predicate reads. -/
theorem annotateChord_pairProj (c : Chord) (n? : Option Chord) (hr : Bool)
    (l : Layers) : pairProj (annotateChord c n? hr l) = pairProj c := by
  rcases annotateChord_cases c n? hr l with h | ⟨v, h, -⟩ <;> rw [h] <;> rfl

/-- The resolution pass preserves the pairwise resolution property. -/
theorem ensure_pairwiseResolvedB (prog : List Chord) (layers : Layers) :
    pairwiseResolvedB (ensureChromaticResolution prog layers) =
      pairwiseResolvedB prog := by
  apply pairwiseResolvedB_congr
  · simp [ensureChromaticResolution]
  · intro i
    by_cases hi : i < prog.length
    · have hg : prog.get? i = some (prog.getD i spreadUndefChord) := by
        rw [List.getD_eq_get?]
        cases hx : prog.get? i with
        | none => exact absurd (List.get?_eq_none.mp hx) (by omega)
        | some a => rfl
      simp only [ensureChromaticResolution, List.get?_map]
      rw [List.get?_range hi, hg]
      simp only [Option.map_some']
      rw [annotateChord_pairProj]
    · rw [List.get?_eq_none.mpr (by omega : prog.length ≤ i),
        List.get?_eq_none.mpr (by simp [ensureChromaticResolution]; omega)]

/-- C2: in every progression the algorithmic strategy produces over the
layers derived from a scale, a secondary-dominant or secondary-diminished
chord is always immediately followed by a chord whose root is its
resolution target, for every outcome of the random draws. -/
theorem c2_algorithmicResolution (scale? : Option Scale) (len : Nat)
    (complexity style : String) (cfg : StyleConfig) (rs : RSeq) (p : Nat)
    (prog : List Chord) (p' : Nat)
    (h : generateAlgorithmic scale? len complexity style
      (getProgressionLayers scale?) cfg rs p = some (prog, p')) :
    pairwiseResolvedB prog = true := by
  simp only [generateAlgorithmic] at h
  cases halg : algBuild len style (getProgressionLayers scale?) cfg
      getFunctionalHarmonyRules (chromaticWeightRows complexity) rs 1 (len - 1)
      [chordWithLayer ((getProgressionLayers scale?).mainChords.getD 0 spreadUndefChord) "main"] p with
  | none => rw [halg] at h; exact absurd h (by simp)
  | some pr =>
      rcases pr with ⟨accRev, p2⟩
      rw [halg] at h
      simp only [Option.some.injEq, Prod.mk.injEq] at h
      obtain ⟨hprog, -⟩ := h
      have hfirstOk : secOkFor (getProgressionLayers scale?).mainChords
          (chordWithLayer ((getProgressionLayers scale?).mainChords.getD 0 spreadUndefChord) "main") := by
        refine secOk_of_choice (layersSecOk scale?) ⟨_, _, rfl, ?_⟩
        rcases getD_mem_or (getProgressionLayers scale?).mainChords 0 spreadUndefChord with hm | hm
        · exact Or.inl (Or.inl hm)
        · exact Or.inr hm
      obtain ⟨-, hpairAcc, -, -⟩ := algBuild_invariant len style _ cfg _ _ rs
        (layersSecOk scale?) (len - 1) 1 _ p accRev p2 halg
        (by
          intro c hc
          rcases List.mem_cons.mp hc with rfl | hc2
          · exact hfirstOk
          · exact absurd hc2 (by simp))
        (by rfl)
      rw [← hprog, ensure_pairwiseResolvedB]
      exact pairwiseResolvedB_take _ _ hpairAcc

/-- The constant one-half stream. -/
def halfSeq : RSeq := fun _ => ⟨1, 2⟩

/-- Witness for C2: a concrete algorithmic run over C major succeeds and
satisfies the pairwise resolution property. -/
theorem c2_algorithmicResolution_witness :
    ∃ pr, generateAlgorithmic (some cMajorScale) 8 "complex" "pop"
      (getProgressionLayers (some cMajorScale)) popStyle halfSeq 0 = some pr ∧
      pairwiseResolvedB pr.1 = true :=
  ⟨_, rfl, c2_algorithmicResolution (some cMajorScale) 8 "complex" "pop"
    popStyle halfSeq 0 _ _ rfl⟩

/-! ### Claim C1: length and first chord of generateProgression. -/

/-- A draw stream steering generateProgression onto the template strategy
(first draw zero), onto the second pop template (second draw one twelfth)
and away from any secondary dominant substitution (all later draws one
half). -/
def sensitiveSeq : RSeq :=
  fun n => if n = 0 then ⟨0, 1⟩ else if n = 1 then ⟨1, 12⟩ else ⟨1, 2⟩

/-- C1 counterexample: with the template strategy drawn and the template
vi-IV-I-V selected, the progression still has eight chords but opens on
the vi chord (root A in C major), not the tonic. -/
theorem c1_counterexample_templateStart :
    (generateProgression (generateScale "C" "major") 8 "simple" "pop"
        sensitiveSeq 0).map
      (fun pr => (pr.1.length, pr.1.head?.map (fun c => (c.root, c.symbol)))) =
      some (8, some ("A", "Am")) ∧
    (harmonizeTriads (generateScale "C" "major")).head?.map (fun c => c.root) =
      some "C" := by
  refine ⟨by decide, by decide⟩

theorem harmonizeTriads_get? (sc : Scale) (i : Nat)
    (h3 : 3 ≤ sc.notes.length) (hi : i < sc.notes.length) :
    (harmonizeTriads (some sc)).get? i = some (triadAt sc i) := by
  simp only [harmonizeTriads]
  rw [if_neg (by omega), List.get?_map, List.get?_range hi]
  rfl

theorem harmonizeTriads_length (sc : Scale) (h3 : 3 ≤ sc.notes.length) :
    (harmonizeTriads (some sc)).length = sc.notes.length := by
  simp only [harmonizeTriads]
  rw [if_neg (by omega)]
  simp

/-- Two main chords with distinct roots exist over a scale of at least
seven pairwise distinct notes. -/
theorem mainVaried_of_scale (sc : Scale) (h7 : 7 ≤ sc.notes.length)
    (hnd : sc.notes.Nodup) :
    ∃ c1 ∈ harmonizeTriads (some sc), ∃ c2 ∈ harmonizeTriads (some sc),
      ¬(c1.root = c2.root ∧ c1.quality = c2.quality) := by
  have h0 : (harmonizeTriads (some sc)).get? 0 = some (triadAt sc 0) :=
    harmonizeTriads_get? sc 0 (by omega) (by omega)
  have h1 : (harmonizeTriads (some sc)).get? 1 = some (triadAt sc 1) :=
    harmonizeTriads_get? sc 1 (by omega) (by omega)
  refine ⟨triadAt sc 0, List.get?_mem h0, triadAt sc 1, List.get?_mem h1, ?_⟩
  rintro ⟨hroot, -⟩
  have hg0 : sc.notes.getD 0 "" = sc.notes.get ⟨0, by omega⟩ := by
    rw [List.getD_eq_get?, List.get?_eq_get (by omega)]
    rfl
  have hg1 : sc.notes.getD 1 "" = sc.notes.get ⟨1, by omega⟩ := by
    rw [List.getD_eq_get?, List.get?_eq_get (by omega)]
    rfl
  have hroot' : sc.notes.get ⟨0, by omega⟩ = sc.notes.get ⟨1, by omega⟩ := by
    rw [← hg0, ← hg1]
    exact hroot
  have := hnd.get_inj_iff.mp hroot'
  simp at this

/-- A chord whose quality-driven triad tag is the plain triad tag is left
alone by the annotation body. -/
theorem annotateChord_skip (c : Chord) (n? : Option Chord) (hr : Bool) (l : Layers)
    (h1 : (c.type == "secondary-dominant") = false)
    (h2 : (c.type == "secondary-diminished") = false)
    (h3 : (c.type == "neapolitan") = false) :
    annotateChord c n? hr l = c := by
  simp [annotateChord, annoSD, annoSDim, annoNeap, h1, h2, h3]

/-- The resolution pass length. -/
theorem ensure_length (prog : List Chord) (layers : Layers) :
    (ensureChromaticResolution prog layers).length = prog.length := by
  simp [ensureChromaticResolution]

/-- The resolution pass keeps a leading triad chord exactly as it is. -/
theorem ensure_get0 (prog : List Chord) (layers : Layers) (c : Chord)
    (h0 : prog.get? 0 = some c) (ht : c.type = "triad") :
    (ensureChromaticResolution prog layers).get? 0 = some c := by
  have hlen : 0 < prog.length := by
    cases prog with
    | nil => simp at h0
    | cons a t => simp
  simp only [ensureChromaticResolution, List.get?_map]
  rw [List.get?_range hlen]
  simp only [Option.map_some']
  have hgd : prog.getD 0 spreadUndefChord = c := by
    rw [List.getD_eq_get?, h0]
    rfl
  rw [hgd, annotateChord_skip c _ _ _ (by rw [ht]; rfl) (by rw [ht]; rfl) (by rw [ht]; rfl)]

/-- Totality of the phrase loop under the variety and range hypotheses. -/
theorem algBuild_total (len : Nat) (style : String) (layers : Layers)
    (cfg : StyleConfig) (rules : List (String × HarmonyRule))
    (weights : List (String × Q)) (rs : RSeq)
    (hMV : ∃ c1 ∈ layers.mainChords, ∃ c2 ∈ layers.mainChords,
      ¬(c1.root = c2.root ∧ c1.quality = c2.quality))
    (hrs : RSeq.inRange rs) :
    ∀ (fuel i : Nat) (acc : List Chord) (p : Nat), acc ≠ [] →
      ∃ acc' p', algBuild len style layers cfg rules weights rs i fuel acc p =
        some (acc', p') := by
  intro fuel
  induction fuel with
  | zero =>
      intro i acc p hne
      exact ⟨acc, p, rfl⟩
  | succ f ih =>
      intro i acc p hne
      cases acc with
      | nil => exact absurd rfl hne
      | cons last rest =>
          simp only [algBuild]
          split
          case h_1 heq =>
            exfalso
            split at heq
            · exact absurd heq (by simp)
            · split at heq
              · exact absurd heq (by simp)
              · split at heq
                · exact absurd heq (by simp)
                · obtain ⟨ch, p', hsome⟩ :=
                    selectNext_total last layers weights rules style rs p hMV hrs
                  rw [hsome] at heq
                  exact absurd heq (by simp)
          case h_2 chosen p1 heq =>
            exact ih (i + 1) _ p1 (by simp)

/-- The pop template catalog: every template is nonempty, fits in eight
chords, and uses only diatonic indices below seven. -/
theorem popTemplates_ok :
    (popStyle.templates.filter (fun t =>
      decide (0 < t.degrees.length) && decide (t.degrees.length ≤ 8))) =
      popStyle.templates ∧
    popStyle.templates.all (fun t => decide (0 < t.degrees.length) &&
      t.degrees.all (fun tok =>
        match tok with
        | DegreeTok.num d => decide (d < 7)
        | DegreeTok.str _ => true)) = true := by
  refine ⟨by decide, by decide⟩

/-- Expanding a template whose numeric tokens all hit the main layer gives
one chord per token. -/
theorem templateToChords_full (degrees : List DegreeTok) (layers : Layers)
    (hmain : 7 ≤ layers.mainChords.length)
    (hok : ∀ tok ∈ degrees, (match tok with
      | DegreeTok.num d => decide (d < 7)
      | DegreeTok.str _ => true) = true) :
    (templateToChords degrees layers).length = degrees.length := by
  induction degrees with
  | nil => rfl
  | cons tok rest ih =>
      have hsome : (templateTokToChord layers tok).isSome = true := by
        cases tok with
        | num d =>
            have hd : d < 7 := by simpa using hok _ (List.mem_cons_self _ _)
            simp only [templateTokToChord]
            cases hg : layers.mainChords.get? d with
            | none => exact absurd (List.get?_eq_none.mp hg) (by omega)
            | some a => simp
        | str s => simp [templateTokToChord]
      unfold templateToChords
      rw [List.filterMap_cons]
      cases hf : templateTokToChord layers tok with
      | none => rw [hf] at hsome; simp at hsome
      | some c =>
          have := ih (fun tok h => hok tok (List.mem_cons_of_mem _ h))
          unfold templateToChords at this
          simp [this]

/-- The tiling loop produces exactly the requested number of chords. -/
theorem tileFrom_length (base : List Chord) (layers : Layers) (cx : String)
    (cfg : StyleConfig) (rs : RSeq) :
    ∀ (n i p : Nat), (tileFrom base layers cx cfg rs i n p).1.length = n := by
  intro n
  induction n with
  | zero => intro i p; rfl
  | succ k ih =>
      intro i p
      simp only [tileFrom, List.length_cons, ih]

/-- Over the pop catalog every template fits in eight chords, so the
template strategy at length eight always succeeds and returns exactly
eight chords. -/
theorem generateFromTemplate_pop_total (sc? : Option Scale) (cx style : String)
    (layers : Layers) (rs : RSeq) (p : Nat)
    (hmain : 7 ≤ layers.mainChords.length) (hrs : RSeq.inRange rs) :
    ∃ prog p2, generateFromTemplate sc? 8 cx style layers popStyle rs p =
      some (prog, p2) ∧ prog.length = 8 := by
  have hvt : popStyle.templates.filter (fun t =>
      decide (0 < t.degrees.length) && decide (t.degrees.length ≤ 8)) =
      popStyle.templates := popTemplates_ok.1
  obtain ⟨hge, hlt⟩ :=
    qFloor_mul_bounds (rs p) popStyle.templates.length (hrs p) (by decide)
  obtain ⟨template, hget⟩ : ∃ t, popStyle.templates.get?
      (Q.floor (Q.mul (rs p) (Q.ofNat popStyle.templates.length))).toNat = some t := by
    cases hx : popStyle.templates.get?
        (Q.floor (Q.mul (rs p) (Q.ofNat popStyle.templates.length))).toNat with
    | none =>
        have := List.get?_eq_none.mp hx
        omega
    | some t => exact ⟨t, rfl⟩
  have htm : template ∈ popStyle.templates := List.get?_mem hget
  have hok0 := List.all_eq_true.mp popTemplates_ok.2 template htm
  rw [Bool.and_eq_true] at hok0
  obtain ⟨hpos, hall⟩ := hok0
  have hpos' : 0 < template.degrees.length := of_decide_eq_true hpos
  have hok : ∀ tok ∈ template.degrees, (match tok with
      | DegreeTok.num d => decide (d < 7)
      | DegreeTok.str _ => true) = true := by
    intro tok ht
    simpa using List.all_eq_true.mp hall tok ht
  have hbase : (templateToChords template.degrees layers).length =
      template.degrees.length := templateToChords_full template.degrees layers hmain hok
  have hbne : (templateToChords template.degrees layers).isEmpty = false := by
    cases hx : templateToChords template.degrees layers with
    | nil => rw [hx] at hbase; simp at hbase; omega
    | cons a t => rfl
  have heq : generateFromTemplate sc? 8 cx style layers popStyle rs p =
      some (ensureChromaticResolution
          (tileFrom (templateToChords template.degrees layers) layers cx popStyle
            rs 0 8 (p + 1)).1 layers,
        (tileFrom (templateToChords template.degrees layers) layers cx popStyle
          rs 0 8 (p + 1)).2) := by
    simp only [generateFromTemplate]
    rw [hvt]
    rw [if_neg (by decide : ¬(popStyle.templates.isEmpty = true))]
    rw [if_neg (not_lt.mpr hge)]
    simp only [hget]
    rw [if_neg (by rw [hbne]; exact Bool.false_ne_true)]
  exact ⟨_, _, heq, by rw [ensure_length, tileFrom_length]⟩

/-- Over the layers of a scale with at least seven distinct notes, the
algorithmic strategy at length eight always succeeds, returns exactly
eight chords and opens on the tonic triad. -/
theorem generateAlgorithmic_c1 (sc : Scale) (cx style : String)
    (cfg : StyleConfig) (rs : RSeq) (p : Nat)
    (h7 : 7 ≤ sc.notes.length) (hnd : sc.notes.Nodup) (hrs : RSeq.inRange rs) :
    ∃ prog p2, generateAlgorithmic (some sc) 8 cx style
        (getProgressionLayers (some sc)) cfg rs p = some (prog, p2) ∧
      prog.length = 8 ∧
      (prog.get? 0).map (fun c => c.root) = some (sc.notes.getD 0 "") := by
  have hMV : ∃ c1 ∈ (getProgressionLayers (some sc)).mainChords,
      ∃ c2 ∈ (getProgressionLayers (some sc)).mainChords,
      ¬(c1.root = c2.root ∧ c1.quality = c2.quality) :=
    mainVaried_of_scale sc h7 hnd
  have hgd : (harmonizeTriads (some sc)).getD 0 spreadUndefChord = triadAt sc 0 := by
    rw [List.getD_eq_get?, harmonizeTriads_get? sc 0 (by omega) (by omega)]
    rfl
  obtain ⟨accRev, p2, halg⟩ :=
    algBuild_total 8 style (getProgressionLayers (some sc)) cfg
      getFunctionalHarmonyRules (chromaticWeightRows cx) rs hMV hrs (8 - 1) 1
      [chordWithLayer ((getProgressionLayers (some sc)).mainChords.getD 0
        spreadUndefChord) "main"] p (by simp)
  have hfirstOk : secOkFor (getProgressionLayers (some sc)).mainChords
      (chordWithLayer ((getProgressionLayers (some sc)).mainChords.getD 0
        spreadUndefChord) "main") := by
    refine secOk_of_choice (layersSecOk (some sc)) ⟨_, _, rfl, ?_⟩
    rcases getD_mem_or (getProgressionLayers (some sc)).mainChords 0 spreadUndefChord with hm | hm
    · exact Or.inl (Or.inl hm)
    · exact Or.inr hm
  obtain ⟨-, -, hlen, hlast⟩ :=
    algBuild_invariant 8 style (getProgressionLayers (some sc)) cfg
      getFunctionalHarmonyRules (chromaticWeightRows cx) rs
      (layersSecOk (some sc)) (8 - 1) 1 _ p accRev p2 halg
      (by
        intro c hc
        rcases List.mem_cons.mp hc with rfl | hc2
        · exact hfirstOk
        · exact absurd hc2 (by simp))
      (by rfl)
  have hlen8 : accRev.length = 8 := by simpa using hlen
  have hlast' : accRev.getLast? =
      some (chordWithLayer ((getProgressionLayers (some sc)).mainChords.getD 0
        spreadUndefChord) "main") := by
    rw [hlast]
    rfl
  have hget0 : (accRev.reverse.take 8).get? 0 =
      some (chordWithLayer ((getProgressionLayers (some sc)).mainChords.getD 0
        spreadUndefChord) "main") := by
    rw [List.get?_take (by omega : 0 < 8), List.get?_zero, List.head?_reverse, hlast']
  have htype : (chordWithLayer ((getProgressionLayers (some sc)).mainChords.getD 0
      spreadUndefChord) "main").type = "triad" := by
    show ((harmonizeTriads (some sc)).getD 0 spreadUndefChord).type = "triad"
    rw [hgd]
    rfl
  have heq : generateAlgorithmic (some sc) 8 cx style
      (getProgressionLayers (some sc)) cfg rs p =
      some (ensureChromaticResolution (accRev.reverse.take 8)
        (getProgressionLayers (some sc)), p2) := by
    simp only [generateAlgorithmic]
    rw [halg]
  refine ⟨_, _, heq, ?_, ?_⟩
  · rw [ensure_length, List.length_take, List.length_reverse, hlen8]
    rfl
  · rw [ensure_get0 _ _ _ hget0 htype]
    show some (((harmonizeTriads (some sc)).getD 0 spreadUndefChord).root) = _
    rw [hgd]
    rfl

/-- C1 (amended): over a scale of at least seven distinct notes,
generateProgression at length 8 with complexity simple and style pop
always succeeds and returns exactly eight chords; when the strategy draw
falls on the algorithmic branch (draw at least 0.7) the progression opens
on the tonic, the first note of the scale.  (Under the template branch
the opening chord is the first chord of the drawn template, which need
not be the tonic.) -/
theorem c1_amended_lengthAndTonicStart (sc : Scale) (rs : RSeq) (p : Nat)
    (h7 : 7 ≤ sc.notes.length) (hnd : sc.notes.Nodup) (hrs : RSeq.inRange rs) :
    ∃ prog p2, generateProgression (some sc) 8 "simple" "pop" rs p =
      some (prog, p2) ∧ prog.length = 8 ∧
      (Q.ltb (rs p) ⟨7, 10⟩ = false →
        (prog.get? 0).map (fun c => c.root) = some (sc.notes.getD 0 "")) := by
  have hmain : 7 ≤ (getProgressionLayers (some sc)).mainChords.length := by
    show 7 ≤ (harmonizeTriads (some sc)).length
    rw [harmonizeTriads_length sc (by omega)]
    exact h7
  simp only [generateProgression]
  have hsty : ((getStyleTemplates.find? (fun pr => pr.1 == "pop")).map
      (fun pr => pr.2)).getD popStyle = popStyle := rfl
  rw [hsty]
  by_cases hq : Q.ltb (rs p) ⟨7, 10⟩ = true
  · rw [hq]
    rw [if_pos (by decide :
      (true && decide (0 < popStyle.templates.length)) = true)]
    obtain ⟨prog, p2, heq, hlen⟩ := generateFromTemplate_pop_total (some sc)
      "simple" "pop" (getProgressionLayers (some sc)) rs (p + 1) hmain hrs
    exact ⟨prog, p2, heq, hlen, fun hf => absurd hf (by simp)⟩
  · rw [Bool.not_eq_true] at hq
    rw [hq]
    rw [if_neg (by decide :
      ¬((false && decide (0 < popStyle.templates.length)) = true))]
    obtain ⟨prog, p2, heq, hlen, hroot⟩ := generateAlgorithmic_c1 sc
      "simple" "pop" popStyle rs (p + 1) h7 hnd hrs
    exact ⟨prog, p2, heq, hlen, fun _ => hroot⟩

/-- The constant seven-tenths stream, which always draws the algorithmic
strategy. -/
def sevententhsSeq : RSeq := fun _ => ⟨7, 10⟩

/-- Witness for the amended C1 over the C major scale with the constant
seven-tenths stream: the hypotheses hold concretely and the amended
theorem applies. -/
theorem c1_amended_witness :
    (7 ≤ cMajorScale.notes.length ∧ cMajorScale.notes.Nodup ∧
      RSeq.inRange sevententhsSeq) ∧
    ∃ prog p2, generateProgression (some cMajorScale) 8 "simple" "pop"
        sevententhsSeq 0 = some (prog, p2) ∧ prog.length = 8 ∧
      (Q.ltb (sevententhsSeq 0) ⟨7, 10⟩ = false →
        (prog.get? 0).map (fun c => c.root) =
          some (cMajorScale.notes.getD 0 "")) :=
  ⟨⟨by decide, by decide, fun n => (by decide : ((⟨7, 10⟩ : Q)).isProb)⟩,
    c1_amended_lengthAndTonicStart cMajorScale sevententhsSeq 0
      (by decide) (by decide) (fun n => (by decide : ((⟨7, 10⟩ : Q)).isProb))⟩
